import Mathlib

/-!
Verification of the filter–aggregate–insight pipeline of the supply-chain
dashboard (`src/app.py`).

The script loads a CSV into a pandas `DataFrame`, normalizes the column
names, filters rows through four sidebar multiselects, computes scalar
KPIs (`sum` / `mean`), computes three grouped-extremum insights
(`groupby(...)[...].sum()/.mean()` followed by `.idxmax()` / `.idxmin()`),
and serializes the filtered view back to CSV bytes.

Two embeddings are used:

* a typed model (`Record`, `applyFilters`, the KPI and insight functions)
  for the claims about filtering, aggregation and export, where the column
  set is the fixed one the script uses; and
* an untyped column-indexed model (`DataFrame`, `runScript`) for the
  schema-error claims, where columns may be missing and column access can
  fail the way `df['col']` fails in pandas (a `KeyError` carrying the
  column name).

Numeric cells are modelled as rationals (`ℚ`): every value a pandas
float64 column can hold is a rational number, and the aggregations used
by the script (`sum`, `mean`) are exact rational operations on them.
-/

/-- Errors the script can raise, mirroring the Python exceptions that the
pandas calls in `src/app.py` actually produce: `df['c']` on a frame
without column `c` raises `KeyError('c')`, and `.idxmax()` / `.idxmin()`
on an empty series raises `ValueError("attempt to get argmax of an empty
sequence")`.  The spec's `SchemaError` / `EmptyAggregationError` names do
not occur anywhere in the code. -/
inductive PyError where
  | keyError (col : String)
  | valueError (msg : String)
deriving DecidableEq

/-- One row of the dataset, restricted to the ten (already normalized)
columns the core pipeline of `src/app.py` reads: the four categorical
filter columns from the sidebar (lines 30–33) and the six numeric columns
used by the KPIs (lines 49–52) and insights (lines 63–65). -/
structure Record where
  product_type : String
  supplier_name : String
  location : String
  transportation_modes : String
  revenue_generated : ℚ
  lead_time : ℚ
  production_volumes : ℚ
  defect_rates : ℚ
  manufacturing_costs : ℚ
  costs : ℚ
deriving DecidableEq

/-- The four sidebar multiselect selections (lines 30–33 of `src/app.py`).
A selection is the list of chosen values; the empty list is what Python's
`if product_type:` treats as falsy, i.e. "no filtering on that column". -/
structure FilterSpec where
  product_type : List String
  supplier_name : List String
  location : List String
  transportation_modes : List String
deriving DecidableEq

/-- The filter block of `src/app.py` lines 35–43: starting from a copy of
the data, each of the four selections that is non-empty (Python
truthiness of the list) keeps exactly the rows whose value for that
column is a member of the selection (`Series.isin`). -/
def applyFilters (data : List Record) (f : FilterSpec) : List Record :=
  let fd := data
  let fd := if f.product_type ≠ [] then
    fd.filter (fun r => f.product_type.contains r.product_type) else fd
  let fd := if f.supplier_name ≠ [] then
    fd.filter (fun r => f.supplier_name.contains r.supplier_name) else fd
  let fd := if f.location ≠ [] then
    fd.filter (fun r => f.location.contains r.location) else fd
  let fd := if f.transportation_modes ≠ [] then
    fd.filter (fun r => f.transportation_modes.contains r.transportation_modes) else fd
  fd

/-- Row-level membership predicate characterizing the filter block: a row
passes iff, for every column whose selection is non-empty, the row's
value for that column is a member of the selection. -/
def passesFilters (f : FilterSpec) (r : Record) : Bool :=
  (f.product_type.isEmpty || f.product_type.contains r.product_type) &&
  (f.supplier_name.isEmpty || f.supplier_name.contains r.supplier_name) &&
  (f.location.isEmpty || f.location.contains r.location) &&
  (f.transportation_modes.isEmpty || f.transportation_modes.contains r.transportation_modes)

lemma guarded_filter_eq (s : List String) (p : Record → Bool) (l : List Record) :
    (if s ≠ [] then l.filter p else l) = l.filter (fun r => s.isEmpty || p r) := by
  by_cases h : s = []
  · subst h
    simp
  · simp only [h, if_pos (by exact h), List.isEmpty_iff, h]
    apply List.filter_congr
    intro r _
    simp [List.isEmpty_iff, h]

lemma applyFilters_eq_filter (d : List Record) (f : FilterSpec) :
    applyFilters d f = d.filter (passesFilters f) := by
  unfold applyFilters
  dsimp only
  rw [guarded_filter_eq, guarded_filter_eq, guarded_filter_eq, guarded_filter_eq]
  simp only [List.filter_filter]
  apply List.filter_congr
  intro r _
  simp only [passesFilters]
  ac_rfl

lemma passesFilters_empty (d : List Record) :
    applyFilters d ⟨[], [], [], []⟩ = d := by
  simp [applyFilters]

/-- C4: for every dataset `d` and filter spec `f`, `applyFilters d f` is a
subsequence of `d` preserving the original record order, and a record is
included iff for every column of `f` with a non-empty allowed-value set
the record's value for that column is a member of that set (the
per-column constraints compose by logical AND, as `passesFilters`
states). -/
theorem applyFilters_subsequence_and_membership :
    ∀ (d : List Record) (f : FilterSpec),
      applyFilters d f = d.filter (passesFilters f) ∧
      (applyFilters d f).Sublist d ∧
      ∀ r : Record, r ∈ applyFilters d f ↔ r ∈ d ∧ passesFilters f r = true := by
  intro d f
  refine ⟨applyFilters_eq_filter d f, ?_, ?_⟩
  · rw [applyFilters_eq_filter]
    exact List.filter_sublist d
  · intro r
    rw [applyFilters_eq_filter]
    exact List.mem_filter

/-- C3: a filter-spec entry with an empty allowed-value set imposes no
constraint on its column (the guard `if product_type:` is falsy in the
code, so the `isin` step is skipped): with an empty `product_type`
selection the result is filtered by the other three columns only, and
with all four selections empty the full dataset is returned unchanged. -/
theorem emptySelection_passthrough :
    ∀ (d : List Record) (s l t : List String),
      applyFilters d ⟨[], s, l, t⟩ =
        d.filter (fun r =>
          (s.isEmpty || s.contains r.supplier_name) &&
          (l.isEmpty || l.contains r.location) &&
          (t.isEmpty || t.contains r.transportation_modes)) ∧
      applyFilters d ⟨[], [], [], []⟩ = d := by
  intro d s l t
  constructor
  · rw [applyFilters_eq_filter]
    apply List.filter_congr
    intro r _
    simp [passesFilters]
  · exact passesFilters_empty d

/-- C9: `applyFilters` is idempotent: filtering an already-filtered view
with the same filter spec returns it unchanged. -/
theorem applyFilters_idempotent :
    ∀ (d : List Record) (f : FilterSpec),
      applyFilters (applyFilters d f) f = applyFilters d f := by
  intro d f
  simp [applyFilters_eq_filter, List.filter_filter]

/-- Mean of a pandas numeric series (`Series.mean`).  On an empty series
pandas returns the float value `NaN` — it does not raise — and `none`
models that `NaN` result here; on a non-empty series the mean is the
exact rational `sum / length`. -/
def seriesMean (xs : List ℚ) : Option ℚ :=
  if xs.isEmpty then none else some (xs.sum / xs.length)

/-- Result of `Series.idxmax` on a series of (index label, value) pairs:
the label of the first occurrence of the maximum value, or the
`ValueError` pandas raises when the series is empty. -/
def seriesIdxmax {α : Type} (s : List (α × ℚ)) : Except PyError α :=
  match s with
  | [] => .error (.valueError "attempt to get argmax of an empty sequence")
  | p :: rest => .ok (rest.foldl (fun best q => if best.2 < q.2 then q else best) p).1

/-- Result of `Series.idxmin`: the label of the first occurrence of the
minimum value, or the `ValueError` pandas raises when the series is
empty. -/
def seriesIdxmin {α : Type} (s : List (α × ℚ)) : Except PyError α :=
  match s with
  | [] => .error (.valueError "attempt to get argmin of an empty sequence")
  | p :: rest => .ok (rest.foldl (fun best q => if q.2 < best.2 then q else best) p).1

/-- Lexicographic comparison of two strings as their character lists,
comparing characters by code point.  This is the string order under which
pandas sorts group keys; it is defined by structural recursion so that
concrete comparisons evaluate. -/
def strLtAux : List Char → List Char → Bool
  | [], [] => false
  | [], _ :: _ => true
  | _ :: _, [] => false
  | a :: as, b :: bs =>
    if a.toNat < b.toNat then true
    else if b.toNat < a.toNat then false
    else strLtAux as bs

/-- Strict lexicographic order on strings. -/
def strLt (a b : String) : Bool := strLtAux a.data b.data

/-- Insert a key into a strictly sorted list of keys, keeping it sorted
and duplicate-free. -/
def sortedInsert (k : String) : List String → List String
  | [] => [k]
  | k' :: ks =>
    if strLt k k' then k :: k' :: ks
    else if strLt k' k then k' :: sortedInsert k ks
    else k' :: ks

/-- The distinct keys of a key column in ascending order: pandas
`groupby` (with its default `sort=True`) indexes the aggregated series by
the sorted distinct key values, not by first appearance. -/
def groupKeys (keys : List String) : List String :=
  keys.foldl (fun ks k => sortedInsert k ks) []

/-- Grouped aggregation `rows.groupby(key)[val].agg()`: the aggregated
series, as (group key, aggregate of the group's values) pairs indexed by
the sorted distinct keys. -/
def groupbyAgg (key : Record → String) (val : Record → ℚ) (agg : List ℚ → ℚ)
    (rows : List Record) : List (String × ℚ) :=
  (groupKeys (rows.map key)).map
    (fun k => (k, agg ((rows.filter (fun r => key r == k)).map val)))

/-- Reduction used by the sum-based insights (`.sum()`). -/
def aggSum (xs : List ℚ) : ℚ := xs.sum

/-- Reduction used by the mean-based insights (`.mean()`); every group a
`groupby` produces is non-empty, so the division is by a positive
count. -/
def aggMean (xs : List ℚ) : ℚ := xs.sum / xs.length

/-- KPI `total_revenue` (line 49): `filtered_data['revenue_generated'].sum()`. -/
def total_revenue (v : List Record) : ℚ := (v.map Record.revenue_generated).sum

/-- KPI `avg_lead_time` (line 50): `filtered_data['lead_time'].mean()`. -/
def avg_lead_time (v : List Record) : Option ℚ := seriesMean (v.map Record.lead_time)

/-- KPI `total_production` (line 51): `filtered_data['production_volumes'].sum()`. -/
def total_production (v : List Record) : ℚ := (v.map Record.production_volumes).sum

/-- KPI `avg_defect_rate` (line 52): `filtered_data['defect_rates'].mean()`. -/
def avg_defect_rate (v : List Record) : Option ℚ := seriesMean (v.map Record.defect_rates)

/-- Insight (line 63):
`filtered_data.groupby('location')['revenue_generated'].sum().idxmax()`. -/
def top_location_revenue (v : List Record) : Except PyError String :=
  seriesIdxmax (groupbyAgg Record.location Record.revenue_generated aggSum v)

/-- Insight (line 64):
`filtered_data.groupby('supplier_name')['manufacturing_costs'].mean().idxmax()`. -/
def highest_cost_supplier (v : List Record) : Except PyError String :=
  seriesIdxmax (groupbyAgg Record.supplier_name Record.manufacturing_costs aggMean v)

/-- Insight (line 65):
`filtered_data.groupby('transportation_modes')['costs'].mean().idxmin()`. -/
def most_efficient_mode (v : List Record) : Except PyError String :=
  seriesIdxmin (groupbyAgg Record.transportation_modes Record.costs aggMean v)

/-- Record constructor shorthand used by concrete test datasets. -/
def mkR (pt sup loc tm : String) (rev lt pv dr mc co : ℚ) : Record :=
  ⟨pt, sup, loc, tm, rev, lt, pv, dr, mc, co⟩

deriving instance DecidableEq for Except

/-- The three-record example dataset of the spec's C7 scenario:
(location=A, revenue=100), (location=B, revenue=150), (location=A,
revenue=60); the other seven fields are irrelevant to the insight and
held constant. -/
def exampleC7 : List Record :=
  [mkR "p" "s" "A" "t" 100 0 0 0 0 0,
   mkR "p" "s" "B" "t" 150 0 0 0 0 0,
   mkR "p" "s" "A" "t" 60 0 0 0 0 0]

/-- C7: the "Top location by revenue" insight is the grouped extremum
with group-by column `location`, value column `revenue_generated`,
reduction `sum`, direction `max`: on the spec's three-record example the
per-location revenue sums are A ↦ 160 and B ↦ 150, and the insight
returns the location "A" achieving the greatest sum. -/
theorem top_location_revenue_example :
    groupbyAgg Record.location Record.revenue_generated aggSum exampleC7 =
      [("A", 160), ("B", 150)] ∧
    top_location_revenue exampleC7 = .ok "A" := by
  constructor
  · with_unfolding_all rfl
  · with_unfolding_all rfl

/-- A one-record dataset together with a filter selection that matches no
record, so that the resulting Filtered View is empty. -/
def exampleEmptyView : List Record :=
  applyFilters [mkR "hat" "s" "l" "t" 1 2 3 4 5 6] ⟨["scarf"], [], [], []⟩

/-- C1 counterexample: on an empty Filtered View the mean KPIs do not
raise any error — `Series.mean` over zero records returns the float
`NaN` (modelled `none`), exactly the silent-NaN outcome the claim
says is avoided — and the grouped-extremum insights raise pandas'
generic `ValueError`, not an `EmptyAggregationError` (no such error
class exists anywhere in the code). -/
theorem empty_view_mean_returns_nan :
    exampleEmptyView = [] ∧
    avg_lead_time exampleEmptyView = none ∧
    avg_defect_rate exampleEmptyView = none ∧
    top_location_revenue exampleEmptyView =
      .error (.valueError "attempt to get argmax of an empty sequence") := by
  refine ⟨?_, ?_, ?_, ?_⟩ <;> with_unfolding_all rfl

/-- C1 amended: over the empty Filtered View, `mean` returns the `NaN`
sentinel (`none`) without failing, `sum` returns 0, and each of the three
grouped-extremum insights fails — but with pandas' `ValueError` from
`idxmax` / `idxmin` ("attempt to get argmax/argmin of an empty
sequence"), not with a dedicated `EmptyAggregationError`. -/
theorem empty_view_aggregation_results :
    avg_lead_time [] = none ∧
    avg_defect_rate [] = none ∧
    total_revenue [] = 0 ∧
    total_production [] = 0 ∧
    top_location_revenue [] =
      .error (.valueError "attempt to get argmax of an empty sequence") ∧
    highest_cost_supplier [] =
      .error (.valueError "attempt to get argmax of an empty sequence") ∧
    most_efficient_mode [] =
      .error (.valueError "attempt to get argmin of an empty sequence") := by
  refine ⟨?_, ?_, ?_, ?_, ?_, ?_, ?_⟩ <;> with_unfolding_all rfl

lemma strLtAux_irrefl : ∀ l : List Char, strLtAux l l = false := by
  intro l
  induction l with
  | nil => rfl
  | cons a as ih => simp [strLtAux, ih]

lemma strLtAux_trans : ∀ l₁ l₂ l₃ : List Char,
    strLtAux l₁ l₂ = true → strLtAux l₂ l₃ = true → strLtAux l₁ l₃ = true := by
  intro l₁
  induction l₁ with
  | nil =>
    intro l₂ l₃ h₁ h₂
    cases l₂ with
    | nil => simp [strLtAux] at h₁
    | cons b bs =>
      cases l₃ with
      | nil => simp [strLtAux] at h₂
      | cons c cs => rfl
  | cons a as ih =>
    intro l₂ l₃ h₁ h₂
    cases l₂ with
    | nil => simp [strLtAux] at h₁
    | cons b bs =>
      cases l₃ with
      | nil => simp [strLtAux] at h₂
      | cons c cs =>
        simp only [strLtAux] at h₁ h₂ ⊢
        by_cases hab : a.toNat < b.toNat
        · by_cases hbc : b.toNat < c.toNat
          · have hac : a.toNat < c.toNat := by omega
            simp [hac]
          · by_cases hcb : c.toNat < b.toNat
            · simp [hbc, hcb] at h₂
            · have hac : a.toNat < c.toNat := by omega
              simp [hac]
        · by_cases hba : b.toNat < a.toNat
          · simp [hab, hba] at h₁
          · by_cases hbc : b.toNat < c.toNat
            · have hac : a.toNat < c.toNat := by omega
              simp [hac]
            · by_cases hcb : c.toNat < b.toNat
              · simp [hbc, hcb] at h₂
              · have h₁x : strLtAux as bs = true := by simpa [hab, hba] using h₁
                have h₂x : strLtAux bs cs = true := by simpa [hbc, hcb] using h₂
                have hac : ¬ a.toNat < c.toNat := by omega
                have hca : ¬ c.toNat < a.toNat := by omega
                simp [hac, hca, ih bs cs h₁x h₂x]

lemma strLt_trans {a b c : String} (h₁ : strLt a b = true) (h₂ : strLt b c = true) :
    strLt a c = true :=
  strLtAux_trans a.data b.data c.data h₁ h₂

lemma strLt_irrefl (a : String) : strLt a a = false := strLtAux_irrefl a.data

lemma strLtAux_eq_of_not : ∀ l₁ l₂ : List Char,
    strLtAux l₁ l₂ = false → strLtAux l₂ l₁ = false → l₁ = l₂ := by
  intro l₁
  induction l₁ with
  | nil =>
    intro l₂ h₁ _
    cases l₂ with
    | nil => rfl
    | cons b bs => simp [strLtAux] at h₁
  | cons a as ih =>
    intro l₂ h₁ h₂
    cases l₂ with
    | nil => simp [strLtAux] at h₂
    | cons b bs =>
      simp only [strLtAux] at h₁ h₂
      by_cases hab : a.toNat < b.toNat
      · simp [hab] at h₁
      · by_cases hba : b.toNat < a.toNat
        · simp [hab, hba] at h₂
        · have h₁x : strLtAux as bs = false := by simpa [hab, hba] using h₁
          have h₂x : strLtAux bs as = false := by simpa [hab, hba] using h₂
          have hn : a.toNat = b.toNat := by omega
          have hcab : a = b := Char.ext (UInt32.ext hn)
          rw [hcab, ih bs h₁x h₂x]

lemma string_data_inj {a b : String} (h : a.data = b.data) : a = b := by
  cases a with
  | mk da =>
    cases b with
    | mk db =>
      rw [show da = db from h]

lemma strLt_eq_of_not {a b : String} (h₁ : strLt a b = false) (h₂ : strLt b a = false) :
    a = b :=
  string_data_inj (strLtAux_eq_of_not a.data b.data h₁ h₂)

lemma sortedInsert_lt (k k' : String) (ks : List String) (h : strLt k k' = true) :
    sortedInsert k (k' :: ks) = k :: k' :: ks := by
  simp [sortedInsert, h]

lemma sortedInsert_gt (k k' : String) (ks : List String)
    (h₁ : strLt k k' = false) (h₂ : strLt k' k = true) :
    sortedInsert k (k' :: ks) = k' :: sortedInsert k ks := by
  simp [sortedInsert, h₁, h₂]

lemma sortedInsert_dup (k k' : String) (ks : List String)
    (h₁ : strLt k k' = false) (h₂ : strLt k' k = false) :
    sortedInsert k (k' :: ks) = k' :: ks := by
  simp [sortedInsert, h₁, h₂]

lemma sortedInsert_mem (k a : String) :
    ∀ l : List String, a ∈ sortedInsert k l ↔ a = k ∨ a ∈ l := by
  intro l
  induction l with
  | nil => simp [sortedInsert]
  | cons k' ks ih =>
    cases h₁ : strLt k k' with
    | true =>
      rw [sortedInsert_lt k k' ks h₁]
      simp
    | false =>
      cases h₂ : strLt k' k with
      | true =>
        rw [sortedInsert_gt k k' ks h₁ h₂]
        simp only [List.mem_cons, ih]
        tauto
      | false =>
        have hkk : k = k' := strLt_eq_of_not h₁ h₂
        subst hkk
        rw [sortedInsert_dup k k ks h₁ h₂]
        simp only [List.mem_cons]
        tauto

lemma sortedInsert_pairwise (k : String) :
    ∀ l : List String, l.Pairwise (fun a b => strLt a b = true) →
      (sortedInsert k l).Pairwise (fun a b => strLt a b = true) := by
  intro l
  induction l with
  | nil =>
    intro _
    simp [sortedInsert]
  | cons k' ks ih =>
    intro h
    rw [List.pairwise_cons] at h
    obtain ⟨hk', hks⟩ := h
    cases h₁ : strLt k k' with
    | true =>
      rw [sortedInsert_lt k k' ks h₁]
      rw [List.pairwise_cons]
      refine ⟨?_, ?_⟩
      · intro a ha
        rcases List.mem_cons.mp ha with rfl | ha
        · exact h₁
        · exact strLt_trans h₁ (hk' a ha)
      · rw [List.pairwise_cons]
        exact ⟨hk', hks⟩
    | false =>
      cases h₂ : strLt k' k with
      | true =>
        rw [sortedInsert_gt k k' ks h₁ h₂]
        rw [List.pairwise_cons]
        refine ⟨?_, ih hks⟩
        intro a ha
        rcases (sortedInsert_mem k a ks).mp ha with rfl | ha
        · exact h₂
        · exact hk' a ha
      | false =>
        rw [sortedInsert_dup k k' ks h₁ h₂]
        rw [List.pairwise_cons]
        exact ⟨hk', hks⟩

lemma groupKeys_loop_pairwise :
    ∀ (keys acc : List String),
      acc.Pairwise (fun a b => strLt a b = true) →
      (keys.foldl (fun ks k => sortedInsert k ks) acc).Pairwise
        (fun a b => strLt a b = true) := by
  intro keys
  induction keys with
  | nil =>
    intro acc h
    exact h
  | cons x xs ih =>
    intro acc h
    exact ih (sortedInsert x acc) (sortedInsert_pairwise x acc h)

lemma groupKeys_pairwise (keys : List String) :
    (groupKeys keys).Pairwise (fun a b => strLt a b = true) :=
  groupKeys_loop_pairwise keys [] List.Pairwise.nil

/-- The running-best fold inside `seriesIdxmax`: scans the series once and
replaces the current best only on a strictly larger value, so the first
occurrence of the maximum wins. -/
def argmaxLoop {α : Type} (p : α × ℚ) (rest : List (α × ℚ)) : α × ℚ :=
  rest.foldl (fun best q => if best.2 < q.2 then q else best) p

lemma seriesIdxmax_cons {α : Type} (p : α × ℚ) (rest : List (α × ℚ)) :
    seriesIdxmax (p :: rest) = .ok (argmaxLoop p rest).1 := rfl

lemma argmaxLoop_spec :
    ∀ (rest : List (String × ℚ)) (p : String × ℚ),
      (p :: rest).Pairwise (fun a b => strLt a.1 b.1 = true) →
      argmaxLoop p rest ∈ p :: rest ∧
      (∀ q ∈ p :: rest, q.2 ≤ (argmaxLoop p rest).2) ∧
      (∀ q ∈ p :: rest, q.2 = (argmaxLoop p rest).2 →
        strLt q.1 (argmaxLoop p rest).1 = false) := by
  intro rest
  induction rest with
  | nil =>
    intro p _
    refine ⟨List.mem_singleton_self p, ?_, ?_⟩
    · intro q hq
      rw [List.mem_singleton.mp hq]
      exact le_refl _
    · intro q hq _
      rw [List.mem_singleton.mp hq]
      exact strLt_irrefl _
  | cons q₀ rest' ih =>
    intro p hp
    have hstep : argmaxLoop p (q₀ :: rest') =
        argmaxLoop (if p.2 < q₀.2 then q₀ else p) rest' := rfl
    by_cases hlt : p.2 < q₀.2
    · have hr : argmaxLoop p (q₀ :: rest') = argmaxLoop q₀ rest' := by
        rw [hstep, if_pos hlt]
      obtain ⟨hmem, hmax, htie⟩ := ih q₀ (List.Pairwise.of_cons hp)
      rw [hr]
      refine ⟨List.mem_cons_of_mem p hmem, ?_, ?_⟩
      · intro q hq
        rcases List.mem_cons.mp hq with rfl | hq
        · exact le_of_lt (lt_of_lt_of_le hlt (hmax q₀ (List.mem_cons_self q₀ rest')))
        · exact hmax q hq
      · intro q hq hq2
        rcases List.mem_cons.mp hq with rfl | hq
        · exfalso
          have := lt_of_lt_of_le hlt (hmax q₀ (List.mem_cons_self q₀ rest'))
          rw [hq2] at this
          exact lt_irrefl _ this
        · exact htie q hq hq2
    · have hr : argmaxLoop p (q₀ :: rest') = argmaxLoop p rest' := by
        rw [hstep, if_neg hlt]
      have hsub : (p :: rest').Sublist (p :: q₀ :: rest') :=
        (List.sublist_cons_self q₀ rest').cons₂ p
      obtain ⟨hmem, hmax, htie⟩ := ih p (hp.sublist hsub)
      have hpq : strLt p.1 q₀.1 = true :=
        (List.pairwise_cons.mp hp).1 q₀ (List.mem_cons_self q₀ rest')
      rw [hr]
      refine ⟨?_, ?_, ?_⟩
      · rcases List.mem_cons.mp hmem with he | hmem'
        · rw [he]
          exact List.mem_cons_self p (q₀ :: rest')
        · exact List.mem_cons_of_mem p (List.mem_cons_of_mem q₀ hmem')
      · intro q hq
        obtain he | hq' := List.mem_cons.mp hq
        · rw [he]
          exact hmax p (List.mem_cons_self p rest')
        · obtain he' | hq'' := List.mem_cons.mp hq'
          · rw [he']
            exact le_trans (le_of_not_lt hlt) (hmax p (List.mem_cons_self p rest'))
          · exact hmax q (List.mem_cons_of_mem p hq'')
      · intro q hq hq2
        obtain he | hq' := List.mem_cons.mp hq
        · rw [he]
          rw [he] at hq2
          exact htie p (List.mem_cons_self p rest') hq2
        · obtain he' | hq'' := List.mem_cons.mp hq'
          · have hq₀2 : q₀.2 = (argmaxLoop p rest').2 := by
              rw [← he']
              exact hq2
            have hpr : p.2 ≤ (argmaxLoop p rest').2 :=
              hmax p (List.mem_cons_self p rest')
            have hpeq : p.2 = (argmaxLoop p rest').2 :=
              le_antisymm hpr (hq₀2 ▸ le_of_not_lt hlt)
            have hpf : strLt p.1 (argmaxLoop p rest').1 = false :=
              htie p (List.mem_cons_self p rest') hpeq
            rw [he']
            cases hx : strLt q₀.1 (argmaxLoop p rest').1 with
            | false => rfl
            | true =>
              have hcontr := strLt_trans hpq hx
              rw [hcontr] at hpf
              exact absurd hpf (by simp)
          · exact htie q (List.mem_cons_of_mem p hq'') hq2

/-- A two-record dataset whose two locations tie at revenue sum 100, with
the key "B" appearing first in the dataset order. -/
def exampleTie : List Record :=
  [mkR "p" "s" "B" "t" 100 0 0 0 0 0,
   mkR "p" "s" "A" "t" 100 0 0 0 0 0]

/-- C2 counterexample: on a dataset whose location keys appear in the
order B, A and whose two groups tie at sum 100, the insight returns
"A" — the smallest key in the sorted group order used by pandas
`groupby` — and not "B", the key that first appears in the dataset's
original record order, contradicting the claimed first-seen tie-break. -/
theorem tie_breaks_to_sorted_order_not_first_seen :
    exampleTie.map Record.location = ["B", "A"] ∧
    groupbyAgg Record.location Record.revenue_generated aggSum exampleTie =
      [("A", 100), ("B", 100)] ∧
    top_location_revenue exampleTie = .ok "A" := by
  refine ⟨?_, ?_, ?_⟩ <;> with_unfolding_all rfl

/-- The running-best fold inside `seriesIdxmin`: replaces the current
best only on a strictly smaller value, so the first occurrence of the
minimum wins. -/
def argminLoop {α : Type} (p : α × ℚ) (rest : List (α × ℚ)) : α × ℚ :=
  rest.foldl (fun best q => if q.2 < best.2 then q else best) p

lemma seriesIdxmin_cons {α : Type} (p : α × ℚ) (rest : List (α × ℚ)) :
    seriesIdxmin (p :: rest) = .ok (argminLoop p rest).1 := rfl

lemma argminLoop_spec :
    ∀ (rest : List (String × ℚ)) (p : String × ℚ),
      (p :: rest).Pairwise (fun a b => strLt a.1 b.1 = true) →
      argminLoop p rest ∈ p :: rest ∧
      (∀ q ∈ p :: rest, (argminLoop p rest).2 ≤ q.2) ∧
      (∀ q ∈ p :: rest, q.2 = (argminLoop p rest).2 →
        strLt q.1 (argminLoop p rest).1 = false) := by
  intro rest
  induction rest with
  | nil =>
    intro p _
    refine ⟨List.mem_singleton_self p, ?_, ?_⟩
    · intro q hq
      rw [List.mem_singleton.mp hq]
      exact le_refl _
    · intro q hq _
      rw [List.mem_singleton.mp hq]
      exact strLt_irrefl _
  | cons q₀ rest' ih =>
    intro p hp
    have hstep : argminLoop p (q₀ :: rest') =
        argminLoop (if q₀.2 < p.2 then q₀ else p) rest' := rfl
    by_cases hlt : q₀.2 < p.2
    · have hr : argminLoop p (q₀ :: rest') = argminLoop q₀ rest' := by
        rw [hstep, if_pos hlt]
      obtain ⟨hmem, hmin, htie⟩ := ih q₀ (List.Pairwise.of_cons hp)
      rw [hr]
      refine ⟨List.mem_cons_of_mem p hmem, ?_, ?_⟩
      · intro q hq
        rcases List.mem_cons.mp hq with rfl | hq
        · exact le_of_lt (lt_of_le_of_lt (hmin q₀ (List.mem_cons_self q₀ rest')) hlt)
        · exact hmin q hq
      · intro q hq hq2
        rcases List.mem_cons.mp hq with rfl | hq
        · exfalso
          have := lt_of_le_of_lt (hmin q₀ (List.mem_cons_self q₀ rest')) hlt
          rw [← hq2] at this
          exact lt_irrefl _ this
        · exact htie q hq hq2
    · have hr : argminLoop p (q₀ :: rest') = argminLoop p rest' := by
        rw [hstep, if_neg hlt]
      have hsub : (p :: rest').Sublist (p :: q₀ :: rest') :=
        (List.sublist_cons_self q₀ rest').cons₂ p
      obtain ⟨hmem, hmin, htie⟩ := ih p (hp.sublist hsub)
      have hpq : strLt p.1 q₀.1 = true :=
        (List.pairwise_cons.mp hp).1 q₀ (List.mem_cons_self q₀ rest')
      rw [hr]
      refine ⟨?_, ?_, ?_⟩
      · rcases List.mem_cons.mp hmem with he | hmem'
        · rw [he]
          exact List.mem_cons_self p (q₀ :: rest')
        · exact List.mem_cons_of_mem p (List.mem_cons_of_mem q₀ hmem')
      · intro q hq
        obtain he | hq' := List.mem_cons.mp hq
        · rw [he]
          exact hmin p (List.mem_cons_self p rest')
        · obtain he' | hq'' := List.mem_cons.mp hq'
          · rw [he']
            exact le_trans (hmin p (List.mem_cons_self p rest')) (le_of_not_lt hlt)
          · exact hmin q (List.mem_cons_of_mem p hq'')
      · intro q hq hq2
        obtain he | hq' := List.mem_cons.mp hq
        · rw [he]
          rw [he] at hq2
          exact htie p (List.mem_cons_self p rest') hq2
        · obtain he' | hq'' := List.mem_cons.mp hq'
          · have hq₀2 : q₀.2 = (argminLoop p rest').2 := by
              rw [← he']
              exact hq2
            have hpr : (argminLoop p rest').2 ≤ p.2 :=
              hmin p (List.mem_cons_self p rest')
            have hpeq : p.2 = (argminLoop p rest').2 :=
              le_antisymm (hq₀2 ▸ le_of_not_lt hlt) hpr
            have hpf : strLt p.1 (argminLoop p rest').1 = false :=
              htie p (List.mem_cons_self p rest') hpeq
            rw [he']
            cases hx : strLt q₀.1 (argminLoop p rest').1 with
            | false => rfl
            | true =>
              have hcontr := strLt_trans hpq hx
              rw [hcontr] at hpf
              exact absurd hpf (by simp)
          · exact htie q (List.mem_cons_of_mem p hq'') hq2

/-- C2 amended: `groupby` indexes the aggregated series by the distinct
group keys in ascending sorted order, and `idxmax` / `idxmin` take the
first extremum in that order, so a returned key attains the extremal
aggregate — the greatest for `idxmax`, the least for `idxmin` — and,
among tied groups, is the least key in the string order — not the
first-seen key of the original record order.  Determinism holds: the
computation is a pure function of the view. -/
theorem argExtremum_tie_breaks_to_least_key :
    ∀ (key : Record → String) (val : Record → ℚ) (agg : List ℚ → ℚ)
      (rows : List Record) (k : String),
      (seriesIdxmax (groupbyAgg key val agg rows) = .ok k →
        ∃ v : ℚ, (k, v) ∈ groupbyAgg key val agg rows ∧
          (∀ p ∈ groupbyAgg key val agg rows, p.2 ≤ v) ∧
          (∀ p ∈ groupbyAgg key val agg rows, p.2 = v → strLt p.1 k = false)) ∧
      (seriesIdxmin (groupbyAgg key val agg rows) = .ok k →
        ∃ v : ℚ, (k, v) ∈ groupbyAgg key val agg rows ∧
          (∀ p ∈ groupbyAgg key val agg rows, v ≤ p.2) ∧
          (∀ p ∈ groupbyAgg key val agg rows, p.2 = v → strLt p.1 k = false)) := by
  intro key val agg rows k
  have hpw : (groupbyAgg key val agg rows).Pairwise
      (fun a b => strLt a.1 b.1 = true) := by
    unfold groupbyAgg
    rw [List.pairwise_map]
    exact groupKeys_pairwise _
  constructor
  · intro h
    cases hG : groupbyAgg key val agg rows with
    | nil =>
      rw [hG] at h
      exact absurd h (by simp [seriesIdxmax])
    | cons p rest =>
      rw [hG] at h hpw
      rw [seriesIdxmax_cons] at h
      have hk : (argmaxLoop p rest).1 = k := by
        injection h
      obtain ⟨hmem, hmax, htie⟩ := argmaxLoop_spec rest p hpw
      refine ⟨(argmaxLoop p rest).2, ?_, ?_, ?_⟩
      · rw [← hk]
        simpa using hmem
      · intro q hq
        exact hmax q hq
      · intro q hq hq2
        rw [← hk]
        exact htie q hq hq2
  · intro h
    cases hG : groupbyAgg key val agg rows with
    | nil =>
      rw [hG] at h
      exact absurd h (by simp [seriesIdxmin])
    | cons p rest =>
      rw [hG] at h hpw
      rw [seriesIdxmin_cons] at h
      have hk : (argminLoop p rest).1 = k := by
        injection h
      obtain ⟨hmem, hmin, htie⟩ := argminLoop_spec rest p hpw
      refine ⟨(argminLoop p rest).2, ?_, ?_, ?_⟩
      · rw [← hk]
        simpa using hmem
      · intro q hq
        exact hmin q hq
      · intro q hq hq2
        rw [← hk]
        exact htie q hq hq2

/-- Witness for C2 amended: on the tied two-group dataset the theorem
applies in both directions with the concrete result key "A" (the two
groups tie, so "A" is simultaneously the idxmax and the idxmin
result). -/
theorem argExtremum_tie_breaks_witness :
    (∃ v : ℚ,
      ("A", v) ∈ groupbyAgg Record.location Record.revenue_generated aggSum exampleTie ∧
      (∀ p ∈ groupbyAgg Record.location Record.revenue_generated aggSum exampleTie,
        p.2 ≤ v) ∧
      (∀ p ∈ groupbyAgg Record.location Record.revenue_generated aggSum exampleTie,
        p.2 = v → strLt p.1 "A" = false)) ∧
    (∃ v : ℚ,
      ("A", v) ∈ groupbyAgg Record.location Record.revenue_generated aggSum exampleTie ∧
      (∀ p ∈ groupbyAgg Record.location Record.revenue_generated aggSum exampleTie,
        v ≤ p.2) ∧
      (∀ p ∈ groupbyAgg Record.location Record.revenue_generated aggSum exampleTie,
        p.2 = v → strLt p.1 "A" = false)) :=
  ⟨(argExtremum_tie_breaks_to_least_key Record.location Record.revenue_generated
      aggSum exampleTie "A").1 (by with_unfolding_all rfl),
   (argExtremum_tie_breaks_to_least_key Record.location Record.revenue_generated
      aggSum exampleTie "A").2 (by with_unfolding_all rfl)⟩

/-- The four filterable columns of the sidebar. -/
inductive FilterCol where
  | pt
  | sup
  | loc
  | tm
deriving DecidableEq

/-- Selection of a filter spec's entry for one column. -/
def FilterSpec.get (f : FilterSpec) : FilterCol → List String
  | .pt => f.product_type
  | .sup => f.supplier_name
  | .loc => f.location
  | .tm => f.transportation_modes

/-- Replacement of a filter spec's entry for one column. -/
def FilterSpec.set (f : FilterSpec) : FilterCol → List String → FilterSpec
  | .pt, s => { f with product_type := s }
  | .sup, s => { f with supplier_name := s }
  | .loc, s => { f with location := s }
  | .tm, s => { f with transportation_modes := s }

/-- A one-record dataset whose product type "b" is outside the allowed
set of the narrowing counterexample. -/
def exampleNarrow : List Record := [mkR "b" "s" "l" "t" 1 2 3 4 5 6]

/-- C6 counterexample: narrowing the `product_type` allowed set from
to the empty set makes the result larger, not smaller: the
empty selection means pass-through (the code skips the `isin` step for a
falsy list), so the record with product type "b" — excluded by the set
with one element "a" — reappears, and the claimed size inequality fails. -/
theorem narrowing_to_empty_grows_result :
    ([] : List String) ⊆ ["a"] ∧
    (applyFilters exampleNarrow ⟨["a"], [], [], []⟩).length = 0 ∧
    (applyFilters exampleNarrow ⟨[], [], [], []⟩).length = 1 ∧
    ¬ ((applyFilters exampleNarrow ⟨[], [], [], []⟩).length ≤
       (applyFilters exampleNarrow ⟨["a"], [], [], []⟩).length) := by
  refine ⟨by simp, ?_, ?_, ?_⟩
  · with_unfolding_all rfl
  · with_unfolding_all rfl
  · have h₀ : (applyFilters exampleNarrow ⟨["a"], [], [], []⟩).length = 0 := by
      with_unfolding_all rfl
    have h₁ : (applyFilters exampleNarrow ⟨[], [], [], []⟩).length = 1 := by
      with_unfolding_all rfl
    omega

/-- C6 amended: narrowing one column's allowed-value set to a *non-empty*
subset never increases the number of records in the filtered view; the
empty narrowed set is excluded because for this code it means "no
constraint" (pass-through), which can grow the result. -/
theorem narrowing_nonempty_monotone :
    ∀ (d : List Record) (f : FilterSpec) (c : FilterCol) (s : List String),
      s ⊆ f.get c → s ≠ [] →
      (applyFilters d (f.set c s)).length ≤ (applyFilters d f).length := by
  intro d f c s hsub hne
  rw [applyFilters_eq_filter, applyFilters_eq_filter]
  apply List.Sublist.length_le
  apply List.monotone_filter_right
  intro r hr
  have hne' : s.isEmpty = false := by
    cases s with
    | nil => exact absurd rfl hne
    | cons a as => rfl
  cases c with
  | pt =>
    simp only [FilterSpec.get] at hsub
    simp only [FilterSpec.set, passesFilters, hne', Bool.false_or, Bool.and_eq_true,
      Bool.or_eq_true, List.contains, List.elem_eq_mem, decide_eq_true_eq] at hr ⊢
    exact ⟨⟨⟨Or.inr (hsub hr.1.1.1), hr.1.1.2⟩, hr.1.2⟩, hr.2⟩
  | sup =>
    simp only [FilterSpec.get] at hsub
    simp only [FilterSpec.set, passesFilters, hne', Bool.false_or, Bool.and_eq_true,
      Bool.or_eq_true, List.contains, List.elem_eq_mem, decide_eq_true_eq] at hr ⊢
    exact ⟨⟨⟨hr.1.1.1, Or.inr (hsub hr.1.1.2)⟩, hr.1.2⟩, hr.2⟩
  | loc =>
    simp only [FilterSpec.get] at hsub
    simp only [FilterSpec.set, passesFilters, hne', Bool.false_or, Bool.and_eq_true,
      Bool.or_eq_true, List.contains, List.elem_eq_mem, decide_eq_true_eq] at hr ⊢
    exact ⟨⟨⟨hr.1.1.1, hr.1.1.2⟩, Or.inr (hsub hr.1.2)⟩, hr.2⟩
  | tm =>
    simp only [FilterSpec.get] at hsub
    simp only [FilterSpec.set, passesFilters, hne', Bool.false_or, Bool.and_eq_true,
      Bool.or_eq_true, List.contains, List.elem_eq_mem, decide_eq_true_eq] at hr ⊢
    exact ⟨⟨⟨hr.1.1.1, hr.1.1.2⟩, hr.1.2⟩, Or.inr (hsub hr.2)⟩

/-- Witness for C6 amended: narrowing the product-type allowed set from
two values to the single value "b" on a concrete two-record dataset. -/
theorem narrowing_nonempty_monotone_witness :
    (applyFilters [mkR "a" "s" "l" "t" 1 2 3 4 5 6, mkR "b" "s" "l" "t" 1 2 3 4 5 6]
      ((⟨["a", "b"], [], [], []⟩ : FilterSpec).set FilterCol.pt ["b"])).length ≤
    (applyFilters [mkR "a" "s" "l" "t" 1 2 3 4 5 6, mkR "b" "s" "l" "t" 1 2 3 4 5 6]
      ⟨["a", "b"], [], [], []⟩).length :=
  narrowing_nonempty_monotone
    [mkR "a" "s" "l" "t" 1 2 3 4 5 6, mkR "b" "s" "l" "t" 1 2 3 4 5 6]
    ⟨["a", "b"], [], [], []⟩ FilterCol.pt ["b"]
    (by simp [FilterSpec.get]) (by simp)

/-- One step of the filter block: the guarded `isin` filter that the code
applies for a single column (lines 36–43). -/
def filterStep (f : FilterSpec) (c : FilterCol) (d : List Record) : List Record :=
  match c with
  | .pt => if f.product_type ≠ [] then
      d.filter (fun r => f.product_type.contains r.product_type) else d
  | .sup => if f.supplier_name ≠ [] then
      d.filter (fun r => f.supplier_name.contains r.supplier_name) else d
  | .loc => if f.location ≠ [] then
      d.filter (fun r => f.location.contains r.location) else d
  | .tm => if f.transportation_modes ≠ [] then
      d.filter (fun r => f.transportation_modes.contains r.transportation_modes) else d

/-- The per-column pass predicate of a single filter step. -/
def stepPred (f : FilterSpec) : FilterCol → Record → Bool
  | .pt => fun r => f.product_type.isEmpty || f.product_type.contains r.product_type
  | .sup => fun r => f.supplier_name.isEmpty || f.supplier_name.contains r.supplier_name
  | .loc => fun r => f.location.isEmpty || f.location.contains r.location
  | .tm => fun r =>
      f.transportation_modes.isEmpty || f.transportation_modes.contains r.transportation_modes

lemma filterStep_eq_filter (f : FilterSpec) (c : FilterCol) (d : List Record) :
    filterStep f c d = d.filter (stepPred f c) := by
  cases c <;> exact guarded_filter_eq _ _ d

lemma filter_swap (p q : Record → Bool) (l : List Record) :
    (l.filter p).filter q = (l.filter q).filter p := by
  simp only [List.filter_filter]
  apply List.filter_congr
  intro r _
  rw [Bool.and_comm]

lemma filterStep_comm (f : FilterSpec) (c₁ c₂ : FilterCol) (d : List Record) :
    filterStep f c₁ (filterStep f c₂ d) = filterStep f c₂ (filterStep f c₁ d) := by
  rw [filterStep_eq_filter, filterStep_eq_filter, filterStep_eq_filter,
    filterStep_eq_filter]
  exact filter_swap _ _ d

lemma applyFilters_eq_foldl (d : List Record) (f : FilterSpec) :
    applyFilters d f =
      [FilterCol.pt, FilterCol.sup, FilterCol.loc, FilterCol.tm].foldl
        (fun acc c => filterStep f c acc) d := rfl

lemma foldl_filterStep_perm (f : FilterSpec) :
    ∀ {l₁ l₂ : List FilterCol}, l₁.Perm l₂ → ∀ d : List Record,
      l₁.foldl (fun acc c => filterStep f c acc) d =
      l₂.foldl (fun acc c => filterStep f c acc) d := by
  intro l₁ l₂ hperm
  induction hperm with
  | nil =>
    intro d
    rfl
  | cons x _ ih =>
    intro d
    simp only [List.foldl_cons]
    exact ih _
  | swap x y l =>
    intro d
    simp only [List.foldl_cons]
    rw [filterStep_comm]
  | trans _ _ ih₁ ih₂ =>
    intro d
    rw [ih₁ d, ih₂ d]

/-- C10: the four per-column constraints commute — applying the four
single-column filter steps in any order yields the same Filtered View as
the fixed product-type, supplier, location, transport-mode order of the
code. -/
theorem filter_steps_commute :
    ∀ (d : List Record) (f : FilterSpec) (steps : List FilterCol),
      steps.Perm [FilterCol.pt, FilterCol.sup, FilterCol.loc, FilterCol.tm] →
      steps.foldl (fun acc c => filterStep f c acc) d = applyFilters d f := by
  intro d f steps hperm
  rw [foldl_filterStep_perm f hperm d]
  exact (applyFilters_eq_foldl d f).symm

/-- Witness for C10: a reversed application order on a concrete dataset
and filter spec produces the filtered view of the code's order. -/
theorem filter_steps_commute_witness :
    [FilterCol.tm, FilterCol.loc, FilterCol.sup, FilterCol.pt].foldl
      (fun acc c => filterStep (⟨["a"], ["s"], [], []⟩ : FilterSpec) c acc)
      [mkR "a" "s" "l" "t" 1 2 3 4 5 6, mkR "b" "s" "l" "t" 1 2 3 4 5 6] =
    applyFilters [mkR "a" "s" "l" "t" 1 2 3 4 5 6, mkR "b" "s" "l" "t" 1 2 3 4 5 6]
      ⟨["a"], ["s"], [], []⟩ :=
  filter_steps_commute
    [mkR "a" "s" "l" "t" 1 2 3 4 5 6, mkR "b" "s" "l" "t" 1 2 3 4 5 6]
    ⟨["a"], ["s"], [], []⟩
    [FilterCol.tm, FilterCol.loc, FilterCol.sup, FilterCol.pt] (by decide)

/-- A cell of the loaded table: the dataset's columns hold either strings
(categorical columns) or numbers. -/
inductive Value where
  | str (s : String)
  | num (q : ℚ)
deriving DecidableEq

/-- The loaded pandas `DataFrame`: an ordered list of (normalized) column
names, and rows whose cells align positionally with the columns.  This
untyped model lets a table lack columns, which the typed `Record` model
cannot express. -/
structure DataFrame where
  columns : List String
  rows : List (List Value)
deriving DecidableEq

/-- The cell of a row for a named column (positional lookup; the default
is never reached on well-formed frames). -/
def cellAt (cols : List String) (row : List Value) (c : String) : Value :=
  row.getD (cols.findIdx (fun c' => c' == c)) (Value.str "")

/-- Column access `df['c']`: the column's cells in row order, or the
`KeyError` naming `c` that pandas raises when the column is absent. -/
def getColumn (df : DataFrame) (c : String) : Except PyError (List Value) :=
  if c ∈ df.columns then
    .ok (df.rows.map (fun row => cellAt df.columns row c))
  else
    .error (.keyError c)

/-- Numeric reading of a cell; the numeric columns of the dataset hold
`num` cells, and the fallback for a stray string cell is irrelevant to
the claims settled over this model. -/
def Value.toRat : Value → ℚ
  | .num q => q
  | .str _ => 0

/-- Sum of a numeric column (`Series.sum`; 0 on an empty series). -/
def numSum (vs : List Value) : ℚ := (vs.map Value.toRat).sum

/-- Mean of a numeric column (`Series.mean`; `none` models the NaN pandas
returns on an empty series). -/
def numMean (vs : List Value) : Option ℚ := seriesMean (vs.map Value.toRat)

/-- An output the script renders: a KPI metric (`st.metric`, lines 54–57)
or an insight line (the markdown block at lines 67–72). -/
inductive DisplayItem where
  | metric (label : String) (value : Option ℚ)
  | insight (label : String) (winner : Value)
deriving DecidableEq

/-- Row filtering `df[df['c'].isin(allowed)]`: keeps the rows whose cell
for column `c` is in `allowed`; raises `KeyError` if `c` is absent. -/
def dfIsin (df : DataFrame) (c : String) (allowed : List Value) :
    Except PyError DataFrame :=
  if c ∈ df.columns then
    .ok { df with rows :=
      df.rows.filter (fun row => allowed.contains (cellAt df.columns row c)) }
  else
    .error (.keyError c)

/-- The default selections of the four sidebar multiselects: each is the
full list of the column's distinct values (`Series.unique`), so every row
passes the subsequent filters. -/
structure Selections where
  product_type : List Value
  supplier_name : List Value
  location : List Value
  transportation_modes : List Value
deriving DecidableEq

/-- Sidebar construction (lines 30–33): reads the four filter columns —
the first point where a missing filter column raises `KeyError` — and
takes their distinct values as the default selections. -/
def sidebar (df : DataFrame) : Except PyError Selections := do
  let pt ← getColumn df "product_type"
  let sup ← getColumn df "supplier_name"
  let loc ← getColumn df "location"
  let tm ← getColumn df "transportation_modes"
  .ok ⟨pt.dedup, sup.dedup, loc.dedup, tm.dedup⟩

/-- The filter block (lines 35–43) over the untyped frame: each non-empty
selection applies its `isin` filter. -/
def filterPhase (df : DataFrame) (sel : Selections) : Except PyError DataFrame :=
  (if sel.product_type ≠ [] then
    dfIsin df "product_type" sel.product_type else .ok df).bind (fun d₁ =>
  (if sel.supplier_name ≠ [] then
    dfIsin d₁ "supplier_name" sel.supplier_name else .ok d₁).bind (fun d₂ =>
  (if sel.location ≠ [] then
    dfIsin d₂ "location" sel.location else .ok d₂).bind (fun d₃ =>
  if sel.transportation_modes ≠ [] then
    dfIsin d₃ "transportation_modes" sel.transportation_modes else .ok d₃)))

/-- KPI block (lines 49–57): the four aggregates are computed first
(lines 49–52, where a missing column raises `KeyError`), then the four
metrics are rendered together (lines 54–57). -/
def kpiPhase (df : DataFrame) : Except PyError (List DisplayItem) := do
  let rev ← getColumn df "revenue_generated"
  let ltv ← getColumn df "lead_time"
  let pv ← getColumn df "production_volumes"
  let dr ← getColumn df "defect_rates"
  .ok [.metric "Total Revenue" (some (numSum rev)),
       .metric "Avg Lead Time" (numMean ltv),
       .metric "Total Production Volume" (some (numSum pv)),
       .metric "Avg Defect Rate" (numMean dr)]

/-- Group-key order for untyped cells, mirroring the sorted group keys of
`groupby`; the key columns of the dataset are homogeneous, and the
cross-type ordering is an arbitrary fixed choice. -/
def Value.ltb : Value → Value → Bool
  | .str a, .str b => strLt a b
  | .num a, .num b => decide (a < b)
  | .str _, .num _ => true
  | .num _, .str _ => false

/-- Sorted duplicate-free insertion of an untyped group key. -/
def valueInsert (k : Value) : List Value → List Value
  | [] => [k]
  | k' :: ks =>
    if Value.ltb k k' then k :: k' :: ks
    else if Value.ltb k' k then k' :: valueInsert k ks
    else k' :: ks

/-- The distinct group keys of a key column in sorted order. -/
def valueKeys (ks : List Value) : List Value :=
  ks.foldl (fun acc k => valueInsert k acc) []

/-- Grouped aggregation `df.groupby(key)[val].agg()` on the untyped
frame; missing key or value column raises `KeyError` (key first, as in
pandas). -/
def dfGroupAgg (df : DataFrame) (key val : String) (agg : List ℚ → ℚ) :
    Except PyError (List (Value × ℚ)) := do
  let ks ← getColumn df key
  let vs ← getColumn df val
  let pairs := ks.zip vs
  .ok ((valueKeys ks).map (fun k =>
    (k, agg ((pairs.filter (fun p => p.1 == k)).map (fun p => p.2.toRat)))))

/-- Insight block (lines 63–72): the three grouped extrema are computed
first (lines 63–65), then rendered together (lines 67–72). -/
def insightPhase (df : DataFrame) : Except PyError (List DisplayItem) := do
  let g₁ ← dfGroupAgg df "location" "revenue_generated" aggSum
  let top ← seriesIdxmax g₁
  let g₂ ← dfGroupAgg df "supplier_name" "manufacturing_costs" aggMean
  let hc ← seriesIdxmax g₂
  let g₃ ← dfGroupAgg df "transportation_modes" "costs" aggMean
  let em ← seriesIdxmin g₃
  .ok [.insight "Top Location (by Revenue)" top,
       .insight "Highest Cost Supplier" hc,
       .insight "Most Efficient Transport Mode (Lowest Cost)" em]

/-- The core pipeline of the script in statement order: sidebar (lines
30–33), filter block (35–43), KPI block (49–57), insight block (63–72).
The result is the list of outputs rendered before the script stops,
paired with the uncaught exception if one was raised: a Python exception
aborts the script, and everything already rendered stays on the page. -/
def runScript (df : DataFrame) : List DisplayItem × Option PyError :=
  match sidebar df with
  | .error e => ([], some e)
  | .ok sel =>
    match filterPhase df sel with
    | .error e => ([], some e)
    | .ok fdf =>
      match kpiPhase fdf with
      | .error e => ([], some e)
      | .ok kpiItems =>
        match insightPhase fdf with
        | .error e => (kpiItems, some e)
        | .ok insightItems => (kpiItems ++ insightItems, none)

/-- The ten columns the core pipeline reads. -/
def coreColumns : List String :=
  ["product_type", "supplier_name", "location", "transportation_modes",
   "revenue_generated", "lead_time", "production_volumes", "defect_rates",
   "manufacturing_costs", "costs"]

lemma getColumn_ok_mem {df : DataFrame} {c : String} {vs : List Value}
    (h : getColumn df c = .ok vs) : c ∈ df.columns := by
  by_cases hm : c ∈ df.columns
  · exact hm
  · simp [getColumn, hm] at h

lemma dfIsin_ok_columns {df : DataFrame} {c : String} {a : List Value} {d' : DataFrame}
    (h : dfIsin df c a = .ok d') : d'.columns = df.columns := by
  by_cases hm : c ∈ df.columns
  · simp only [dfIsin, hm, if_pos, Except.ok.injEq] at h
    rw [← h]
  · simp [dfIsin, hm] at h

lemma guarded_dfIsin_ok_columns {df : DataFrame} {c : String} {a : List Value}
    {g : Prop} [Decidable g] {d' : DataFrame}
    (h : (if g then dfIsin df c a else .ok df) = .ok d') :
    d'.columns = df.columns := by
  by_cases hg : g
  · rw [if_pos hg] at h
    exact dfIsin_ok_columns h
  · rw [if_neg hg] at h
    have : df = d' := by
      injection h
    rw [← this]

lemma filterPhase_ok_columns {df : DataFrame} {sel : Selections} {fdf : DataFrame}
    (h : filterPhase df sel = .ok fdf) : fdf.columns = df.columns := by
  unfold filterPhase at h
  cases h₁ : (if sel.product_type ≠ [] then
      dfIsin df "product_type" sel.product_type else .ok df) with
  | error e =>
    rw [h₁] at h
    simp [Except.bind] at h
  | ok d₁ =>
    rw [h₁] at h
    simp only [Except.bind] at h
    cases h₂ : (if sel.supplier_name ≠ [] then
        dfIsin d₁ "supplier_name" sel.supplier_name else .ok d₁) with
    | error e =>
      rw [h₂] at h
      simp [Except.bind] at h
    | ok d₂ =>
      rw [h₂] at h
      simp only [Except.bind] at h
      cases h₃ : (if sel.location ≠ [] then
          dfIsin d₂ "location" sel.location else .ok d₂) with
      | error e =>
        rw [h₃] at h
        simp [Except.bind] at h
      | ok d₃ =>
        rw [h₃] at h
        simp only [Except.bind] at h
        have e₄ := guarded_dfIsin_ok_columns h
        have e₃ := guarded_dfIsin_ok_columns h₃
        have e₂ := guarded_dfIsin_ok_columns h₂
        have e₁ := guarded_dfIsin_ok_columns h₁
        rw [e₄, e₃, e₂, e₁]

lemma bind_ok {α β : Type} {e : Except PyError α} {f : α → Except PyError β} {b : β}
    (h : (e >>= f) = .ok b) : ∃ a, e = .ok a ∧ f a = .ok b := by
  cases e with
  | error ε => simp [Bind.bind, Except.bind] at h
  | ok a =>
    refine ⟨a, rfl, ?_⟩
    simpa [Bind.bind, Except.bind] using h

lemma sidebar_ok_mem {df : DataFrame} {sel : Selections} (h : sidebar df = .ok sel) :
    "product_type" ∈ df.columns ∧ "supplier_name" ∈ df.columns ∧
    "location" ∈ df.columns ∧ "transportation_modes" ∈ df.columns := by
  unfold sidebar at h
  obtain ⟨pt, hpt, h⟩ := bind_ok h
  obtain ⟨sup, hsup, h⟩ := bind_ok h
  obtain ⟨loc, hloc, h⟩ := bind_ok h
  obtain ⟨tm, htm, h⟩ := bind_ok h
  exact ⟨getColumn_ok_mem hpt, getColumn_ok_mem hsup,
    getColumn_ok_mem hloc, getColumn_ok_mem htm⟩

lemma kpiPhase_ok_mem {df : DataFrame} {items : List DisplayItem}
    (h : kpiPhase df = .ok items) :
    "revenue_generated" ∈ df.columns ∧ "lead_time" ∈ df.columns ∧
    "production_volumes" ∈ df.columns ∧ "defect_rates" ∈ df.columns := by
  unfold kpiPhase at h
  obtain ⟨rev, hrev, h⟩ := bind_ok h
  obtain ⟨ltv, hltv, h⟩ := bind_ok h
  obtain ⟨pv, hpv, h⟩ := bind_ok h
  obtain ⟨dr, hdr, h⟩ := bind_ok h
  exact ⟨getColumn_ok_mem hrev, getColumn_ok_mem hltv,
    getColumn_ok_mem hpv, getColumn_ok_mem hdr⟩

lemma dfGroupAgg_ok_mem {df : DataFrame} {key val : String} {agg : List ℚ → ℚ}
    {g : List (Value × ℚ)} (h : dfGroupAgg df key val agg = .ok g) :
    key ∈ df.columns ∧ val ∈ df.columns := by
  unfold dfGroupAgg at h
  obtain ⟨ks, hks, h⟩ := bind_ok h
  obtain ⟨vs, hvs, h⟩ := bind_ok h
  exact ⟨getColumn_ok_mem hks, getColumn_ok_mem hvs⟩

lemma insightPhase_ok_mem {df : DataFrame} {items : List DisplayItem}
    (h : insightPhase df = .ok items) :
    "location" ∈ df.columns ∧ "revenue_generated" ∈ df.columns ∧
    "supplier_name" ∈ df.columns ∧ "manufacturing_costs" ∈ df.columns ∧
    "transportation_modes" ∈ df.columns ∧ "costs" ∈ df.columns := by
  unfold insightPhase at h
  obtain ⟨g₁, hg₁, h⟩ := bind_ok h
  obtain ⟨top, _, h⟩ := bind_ok h
  obtain ⟨g₂, hg₂, h⟩ := bind_ok h
  obtain ⟨hc, _, h⟩ := bind_ok h
  obtain ⟨g₃, hg₃, h⟩ := bind_ok h
  obtain ⟨em, _, h⟩ := bind_ok h
  obtain ⟨ha, hb⟩ := dfGroupAgg_ok_mem hg₁
  obtain ⟨hcc, hd⟩ := dfGroupAgg_ok_mem hg₂
  obtain ⟨he, hf⟩ := dfGroupAgg_ok_mem hg₃
  exact ⟨ha, hb, hcc, hd, he, hf⟩

lemma runScript_none_columns {df : DataFrame}
    (h : (runScript df).2 = none) : ∀ c ∈ coreColumns, c ∈ df.columns := by
  intro c hc
  unfold runScript at h
  split at h
  · simp at h
  · rename_i sel hs
    split at h
    · simp at h
    · rename_i fdf hf
      split at h
      · simp at h
      · rename_i kpiItems hk
        split at h
        · simp at h
        · rename_i insightItems hi
          obtain ⟨h₁, h₂, h₃, h₄⟩ := sidebar_ok_mem hs
          have hcols := filterPhase_ok_columns hf
          obtain ⟨h₅, h₆, h₇, h₈⟩ := kpiPhase_ok_mem hk
          obtain ⟨_, _, _, h₉, _, h₁₀⟩ := insightPhase_ok_mem hi
          rw [hcols] at h₅ h₆ h₇ h₈ h₉ h₁₀
          simp only [coreColumns, List.mem_cons, List.not_mem_nil, or_false] at hc
          rcases hc with rfl | rfl | rfl | rfl | rfl | rfl | rfl | rfl | rfl | rfl
          · exact h₁
          · exact h₂
          · exact h₃
          · exact h₄
          · exact h₅
          · exact h₆
          · exact h₇
          · exact h₈
          · exact h₉
          · exact h₁₀

/-- A loaded table with one row that has every core column except
`costs`, which only the third insight (line 65) reads. -/
def exampleMissingCosts : DataFrame :=
  { columns := ["product_type", "supplier_name", "location",
      "transportation_modes", "revenue_generated", "lead_time",
      "production_volumes", "defect_rates", "manufacturing_costs"],
    rows := [[.str "p", .str "s", .str "l", .str "t",
      .num 5, .num 3, .num 7, .num 1, .num 2]] }

/-- C5 counterexample: on a table lacking only the `costs` column the
script is not stopped eagerly by a schema check — it renders the four
KPI metrics (a partial dashboard), computes two of the three insights,
and only then fails, at the first access of the missing column, with
pandas' `KeyError('costs')`; no `SchemaError` class exists in the code. -/
theorem missing_column_partial_dashboard :
    runScript exampleMissingCosts =
      ([.metric "Total Revenue" (some 5),
        .metric "Avg Lead Time" (some 3),
        .metric "Total Production Volume" (some 7),
        .metric "Avg Defect Rate" (some 1)],
       some (.keyError "costs")) := by
  with_unfolding_all rfl

/-- C5 amended: a table missing any column the pipeline needs always
makes the script fail (the failure is fatal: nothing after the raising
statement runs), and the failure is pandas' `KeyError` naming the column
at its first access — not an eager load-time `SchemaError`: outputs
produced before that access (the KPI metrics, when only an insight
column is missing) are still rendered.  When the missing column is the
first one accessed (`product_type`, line 30) the script fails before
producing any output, with the error naming that column. -/
theorem missing_column_fails_lazily :
    ∀ df : DataFrame,
      ((∃ c ∈ coreColumns, c ∉ df.columns) → (runScript df).2.isSome = true) ∧
      ("product_type" ∉ df.columns →
        runScript df = ([], some (.keyError "product_type"))) := by
  intro df
  constructor
  · rintro ⟨c, hc, hn⟩
    cases ho : (runScript df).2 with
    | none => exact absurd (runScript_none_columns ho c hc) hn
    | some e => simp
  · intro hpt
    simp [runScript, sidebar, getColumn, hpt, Bind.bind, Except.bind]

/-- Witness for C5 amended: the table missing `costs` makes the script
fail, and the empty table (no columns at all) fails immediately with
`KeyError('product_type')` and no output. -/
theorem missing_column_fails_lazily_witness :
    (runScript exampleMissingCosts).2.isSome = true ∧
    runScript ⟨[], []⟩ = ([], some (.keyError "product_type")) :=
  ⟨(missing_column_fails_lazily exampleMissingCosts).1
      ⟨"costs", by decide, by decide⟩,
   (missing_column_fails_lazily ⟨[], []⟩).2 (by decide)⟩

/-- Split a character list at every occurrence of a separator; the result
always has one chunk more than the number of separators, so text ending
in a separator yields a trailing empty chunk. -/
def splitOnChar (sep : Char) : List Char → List (List Char)
  | [] => [[]]
  | c :: cs =>
    if c = sep then [] :: splitOnChar sep cs
    else
      match splitOnChar sep cs with
      | [] => [[c]]
      | l :: ls => (c :: l) :: ls

/-- Join cell texts with the CSV field delimiter. -/
def joinCells : List (List Char) → List Char
  | [] => []
  | [c] => c
  | c :: cs => c ++ ',' :: joinCells cs

lemma splitOnChar_not_nil (sep : Char) : ∀ cs : List Char, splitOnChar sep cs ≠ [] := by
  intro cs
  cases cs with
  | nil => simp [splitOnChar]
  | cons c cs' =>
    by_cases h : c = sep
    · simp [splitOnChar, h]
    · simp only [splitOnChar, h, if_neg]
      cases splitOnChar sep cs' with
      | nil => simp
      | cons l ls => simp

lemma splitOnChar_no_sep (sep : Char) :
    ∀ cs : List Char, sep ∉ cs → splitOnChar sep cs = [cs] := by
  intro cs
  induction cs with
  | nil => intro _; rfl
  | cons c cs' ih =>
    intro h
    have hc : c ≠ sep := fun he => h (he ▸ List.mem_cons_self c cs')
    have hcs : sep ∉ cs' := fun hm => h (List.mem_cons_of_mem c hm)
    simp only [splitOnChar, if_neg hc, ih hcs]

lemma splitOnChar_append (sep : Char) :
    ∀ cs rest : List Char, sep ∉ cs →
      splitOnChar sep (cs ++ sep :: rest) = cs :: splitOnChar sep rest := by
  intro cs
  induction cs with
  | nil =>
    intro rest _
    simp [splitOnChar]
  | cons c cs' ih =>
    intro rest h
    have hc : c ≠ sep := fun he => h (he ▸ List.mem_cons_self c cs')
    have hcs : sep ∉ cs' := fun hm => h (List.mem_cons_of_mem c hm)
    simp only [List.cons_append, splitOnChar, if_neg hc, List.append_eq, ih rest hcs]

lemma joinCells_split :
    ∀ cells : List (List Char), cells ≠ [] → (∀ cell ∈ cells, ',' ∉ cell) →
      splitOnChar ',' (joinCells cells) = cells := by
  intro cells
  induction cells with
  | nil => intro h _; exact absurd rfl h
  | cons cell rest ih =>
    intro _ hnc
    cases rest with
    | nil =>
      have : joinCells [cell] = cell := rfl
      rw [this]
      exact splitOnChar_no_sep ',' cell (hnc cell (List.mem_cons_self cell []))
    | cons cell₂ rest₂ =>
      have : joinCells (cell :: cell₂ :: rest₂) =
          cell ++ ',' :: joinCells (cell₂ :: rest₂) := rfl
      rw [this, splitOnChar_append ',' cell _ (hnc cell (List.mem_cons_self _ _))]
      rw [ih (by simp) (fun c hc => hnc c (List.mem_cons_of_mem cell hc))]

/-- Little-endian base-10 digits of a natural number, computed with
explicit fuel so that the recursion is structural and concrete values
reduce. -/
def natDigitsAux : Nat → Nat → List Nat
  | 0, _ => []
  | fuel + 1, n => if n = 0 then [] else n % 10 :: natDigitsAux fuel (n / 10)

/-- Little-endian base-10 digits (empty for 0). -/
def natDigits (n : Nat) : List Nat := natDigitsAux n n

/-- Value of a little-endian base-10 digit list. -/
def ofDigits10 : List Nat → Nat
  | [] => 0
  | d :: ds => d + 10 * ofDigits10 ds

/-- The character of a decimal digit. -/
def charOfDigit (d : Nat) : Char := Char.ofNat (48 + d)

/-- The decimal digit of a character. -/
def digitOfChar (c : Char) : Nat := c.toNat - 48

/-- Recognizer of decimal digit characters. -/
def isDigitChar (c : Char) : Bool := decide (48 ≤ c.toNat ∧ c.toNat ≤ 57)

/-- Decimal text of a natural number, most significant digit first. -/
def natToChars (n : Nat) : List Char :=
  if n = 0 then ['0'] else (natDigits n).reverse.map charOfDigit

/-- Parse decimal text into a natural number (the text must be non-empty
and all digits; leading zeros are allowed). -/
def parseNat (cs : List Char) : Option Nat :=
  if cs ≠ [] ∧ cs.all isDigitChar then
    some (cs.foldl (fun acc c => acc * 10 + digitOfChar c) 0)
  else none

lemma natDigitsAux_succ {fuel n : Nat} (h : n ≠ 0) :
    natDigitsAux (fuel + 1) n = n % 10 :: natDigitsAux fuel (n / 10) := by
  simp [natDigitsAux, h]

lemma natDigitsAux_spec : ∀ fuel n, n ≤ fuel → ofDigits10 (natDigitsAux fuel n) = n := by
  intro fuel
  induction fuel with
  | zero =>
    intro n hn
    have : n = 0 := Nat.le_zero.mp hn
    subst this
    rfl
  | succ fuel ih =>
    intro n hn
    by_cases h0 : n = 0
    · subst h0
      simp [natDigitsAux, ofDigits10]
    · have hdiv : n / 10 ≤ fuel := by
        have : n / 10 < n := Nat.div_lt_self (Nat.pos_of_ne_zero h0) (by omega)
        omega
      rw [natDigitsAux_succ h0]
      simp only [ofDigits10, ih (n / 10) hdiv]
      omega

lemma natDigitsAux_lt : ∀ fuel n d, d ∈ natDigitsAux fuel n → d < 10 := by
  intro fuel
  induction fuel with
  | zero =>
    intro n d hd
    simp [natDigitsAux] at hd
  | succ fuel ih =>
    intro n d hd
    by_cases h0 : n = 0
    · subst h0
      simp [natDigitsAux] at hd
    · rw [natDigitsAux_succ h0] at hd
      rcases List.mem_cons.mp hd with rfl | hd
      · exact Nat.mod_lt n (by omega)
      · exact ih (n / 10) d hd

lemma natDigitsAux_length : ∀ fuel n k, n < 10 ^ k → (natDigitsAux fuel n).length ≤ k := by
  intro fuel
  induction fuel with
  | zero =>
    intro n k _
    simp [natDigitsAux]
  | succ fuel ih =>
    intro n k hn
    by_cases h0 : n = 0
    · subst h0
      simp [natDigitsAux]
    · cases k with
      | zero =>
        simp at hn
        omega
      | succ k' =>
        have hdiv : n / 10 < 10 ^ k' := by
          rw [pow_succ] at hn
          omega
        rw [natDigitsAux_succ h0]
        simp only [List.length_cons]
        have := ih (n / 10) k' hdiv
        omega

lemma charOfDigit_spec (d : Nat) (hd : d < 10) :
    isDigitChar (charOfDigit d) = true ∧ digitOfChar (charOfDigit d) = d ∧
    charOfDigit d ≠ ',' ∧ charOfDigit d ≠ '"' ∧ charOfDigit d ≠ '\n' ∧
    charOfDigit d ≠ '.' ∧ charOfDigit d ≠ '-' := by
  interval_cases d <;> exact (by decide)

lemma foldl_digits : ∀ (ds : List Nat) (acc : Nat), (∀ d ∈ ds, d < 10) →
    (ds.reverse.map charOfDigit).foldl (fun a c => a * 10 + digitOfChar c) acc =
      acc * 10 ^ ds.length + ofDigits10 ds := by
  intro ds
  induction ds with
  | nil =>
    intro acc _
    simp [ofDigits10]
  | cons d ds' ih =>
    intro acc hds
    have hd : d < 10 := hds d (List.mem_cons_self d ds')
    have hds' : ∀ x ∈ ds', x < 10 := fun x hx => hds x (List.mem_cons_of_mem d hx)
    simp only [List.reverse_cons, List.map_append, List.foldl_append, List.map_cons,
      List.map_nil, List.foldl_cons, List.foldl_nil, ih acc hds', ofDigits10,
      List.length_cons, (charOfDigit_spec d hd).2.1]
    ring

lemma natDigits_ne_nil {n : Nat} (h : n ≠ 0) : natDigits n ≠ [] := by
  unfold natDigits
  cases n with
  | zero => exact absurd rfl h
  | succ m =>
    simp [natDigitsAux]

lemma parseNat_natToChars (n : Nat) : parseNat (natToChars n) = some n := by
  by_cases h0 : n = 0
  · subst h0
    decide
  · have hne : (natDigits n).reverse.map charOfDigit ≠ [] := by
      simp [natDigits_ne_nil h0]
    have hall : ((natDigits n).reverse.map charOfDigit).all isDigitChar = true := by
      rw [List.all_eq_true]
      intro c hc
      rw [List.mem_map] at hc
      obtain ⟨d, hd, rfl⟩ := hc
      rw [List.mem_reverse] at hd
      exact (charOfDigit_spec d (natDigitsAux_lt n n d hd)).1
    simp only [natToChars, h0, if_neg, parseNat, hne, hall, and_true, ne_eq,
      not_false_eq_true, if_pos]
    rw [foldl_digits (natDigits n) 0 (fun d hd => natDigitsAux_lt n n d hd)]
    have : ofDigits10 (natDigits n) = n := natDigitsAux_spec n n (le_refl n)
    rw [this]
    simp

/-- Left-pad decimal text with zeros up to a target width. -/
def leftPad (k : Nat) (cs : List Char) : List Char :=
  List.replicate (k - cs.length) '0' ++ cs

lemma natToChars_pos {n : Nat} (h : n ≠ 0) :
    natToChars n = (natDigits n).reverse.map charOfDigit := by
  simp [natToChars, h]

lemma foldl_zeros : ∀ z : Nat,
    (List.replicate z '0').foldl (fun a c => a * 10 + digitOfChar c) 0 = 0 := by
  intro z
  induction z with
  | zero => rfl
  | succ z ih =>
    rw [List.replicate_succ, List.foldl_cons]
    simpa using ih

lemma parseNat_leftPad (k : Nat) (cs : List Char) (v : Nat)
    (h : parseNat cs = some v) : parseNat (leftPad k cs) = some v := by
  unfold parseNat at h
  by_cases hc : cs ≠ [] ∧ cs.all isDigitChar
  · rw [if_pos hc] at h
    have hfold := Option.some.inj h
    unfold parseNat leftPad
    have hne : List.replicate (k - cs.length) '0' ++ cs ≠ [] := by
      intro he
      exact hc.1 (List.append_eq_nil.mp he).2
    have hall : (List.replicate (k - cs.length) '0' ++ cs).all isDigitChar = true := by
      rw [List.all_append, Bool.and_eq_true]
      refine ⟨?_, hc.2⟩
      rw [List.all_eq_true]
      intro c hcm
      rw [List.eq_of_mem_replicate hcm]
      decide
    rw [if_pos ⟨hne, hall⟩, List.foldl_append, foldl_zeros, hfold]
  · rw [if_neg hc] at h
    exact absurd h (by simp)

lemma natToChars_all_digit (n : Nat) :
    ∀ c ∈ natToChars n, isDigitChar c = true := by
  intro c hc
  by_cases h0 : n = 0
  · subst h0
    simp only [natToChars, if_pos] at hc
    rw [List.mem_singleton.mp hc]
    decide
  · rw [natToChars_pos h0] at hc
    rw [List.mem_map] at hc
    obtain ⟨d, hd, rfl⟩ := hc
    rw [List.mem_reverse] at hd
    exact (charOfDigit_spec d (natDigitsAux_lt n n d hd)).1

lemma isDigitChar_ne {c : Char} (h : isDigitChar c = true) :
    c ≠ ',' ∧ c ≠ '"' ∧ c ≠ '\n' ∧ c ≠ '.' ∧ c ≠ '-' := by
  simp only [isDigitChar, decide_eq_true_eq] at h
  refine ⟨?_, ?_, ?_, ?_, ?_⟩ <;>
    intro he <;> subst he <;> simp at h

lemma natToChars_length (n k : Nat) (h : n < 10 ^ k) :
    (natToChars n).length ≤ max k 1 := by
  by_cases h0 : n = 0
  · subst h0
    simp [natToChars]
  · rw [natToChars_pos h0]
    simp only [List.length_map, List.length_reverse]
    have := natDigitsAux_length n n k h
    unfold natDigits
    omega

lemma leftPad_length {cs : List Char} {k : Nat} (h : cs.length ≤ k) :
    (leftPad k cs).length = k := by
  simp only [leftPad, List.length_append, List.length_replicate]
  omega

/-- The numerator of `q` scaled to `q.den` decimal places.  For a decimal
representable rational (denominator dividing a power of ten) the exponent
`q.den` is always sufficient: a denominator `2^a * 5^b` dividing some
power of ten satisfies `a, b ≤ q.den`. -/
def decScaled (q : ℚ) : Nat := (q.num * ((10 ^ q.den / q.den : Nat) : Int)).natAbs

/-- Decimal text of `|q|`: integer part, point, `max q.den 1` fraction
digits.  pandas prints the shortest decimal that parses back to the same
float64; this model may print extra trailing zeros — the same value at
the declared precision. -/
def absRatChars (q : ℚ) : List Char :=
  natToChars (decScaled q / 10 ^ q.den) ++
    '.' :: leftPad (max q.den 1) (natToChars (decScaled q % 10 ^ q.den))

/-- Text `to_csv` writes for the float64 cell holding `q`: sign, then the
decimal text.  A rational that is not decimal representable cannot arise
from a loaded float column; it is written in exact `p/q` form, which the
reader rejects (the case is outside the serializer's use). -/
def ratToChars (q : ℚ) : List Char :=
  if 10 ^ q.den % q.den = 0 then
    (if q.num < 0 then ['-'] else []) ++ absRatChars q
  else
    (if q.num < 0 then ['-'] else []) ++
      natToChars q.num.natAbs ++ '/' :: natToChars q.den

/-- Parse unsigned decimal text, either `a.b` or plain `a`. -/
def parseRatPos (cs : List Char) : Option ℚ :=
  match splitOnChar '.' cs with
  | [intCs, fracCs] =>
    match parseNat intCs, parseNat fracCs with
    | some a, some b => some ((a : ℚ) + (b : ℚ) / ((10 : ℚ) ^ fracCs.length))
    | _, _ => none
  | [intCs] => (parseNat intCs).map (fun a => (a : ℚ))
  | _ => none

/-- Parse decimal text with an optional leading minus sign. -/
def parseRat (cs : List Char) : Option ℚ :=
  match cs with
  | [] => none
  | c :: rest =>
    if c = '-' then (parseRatPos rest).map (fun x => -x)
    else parseRatPos (c :: rest)

lemma natToChars_ne_nil (n : Nat) : natToChars n ≠ [] := by
  by_cases h0 : n = 0
  · subst h0
    simp [natToChars]
  · rw [natToChars_pos h0]
    simp [natDigits_ne_nil h0]

lemma parseRat_cons_ne {c : Char} (hc : c ≠ '-') (cs : List Char) :
    parseRat (c :: cs) = parseRatPos (c :: cs) := by
  unfold parseRat
  dsimp only
  rw [if_neg hc]

lemma parseRat_cons_neg (cs : List Char) :
    parseRat ('-' :: cs) = (parseRatPos cs).map (fun x => -x) := by
  unfold parseRat
  dsimp only
  rw [if_pos rfl]

lemma dec_value (q : ℚ) (hq : 10 ^ q.den % q.den = 0) :
    ((decScaled q / 10 ^ q.den : Nat) : ℚ) +
      ((decScaled q % 10 ^ q.den : Nat) : ℚ) / (10 : ℚ) ^ (max q.den 1) =
    (q.num.natAbs : ℚ) / q.den := by
  have hden : 0 < q.den := q.pos
  have hdvd : q.den ∣ 10 ^ q.den := Nat.dvd_of_mod_eq_zero hq
  have hc : 10 ^ q.den / q.den * q.den = 10 ^ q.den := Nat.div_mul_cancel hdvd
  have hm : decScaled q = q.num.natAbs * (10 ^ q.den / q.den) := by
    unfold decScaled
    simp only [Int.natAbs_mul, Int.natAbs_ofNat]
  have hmax : max q.den 1 = q.den := by omega
  rw [hmax]
  have hMQ : ((10 : ℚ) ^ q.den) ≠ 0 := by positivity
  have hsplit : 10 ^ q.den * (decScaled q / 10 ^ q.den) + decScaled q % 10 ^ q.den =
      decScaled q := Nat.div_add_mod (decScaled q) (10 ^ q.den)
  have hcast : ((decScaled q : Nat) : ℚ) =
      ((decScaled q / 10 ^ q.den : Nat) : ℚ) * (10 : ℚ) ^ q.den +
      ((decScaled q % 10 ^ q.den : Nat) : ℚ) := by
    conv_lhs => rw [← hsplit]
    push_cast
    ring
  have step1 : ((decScaled q / 10 ^ q.den : Nat) : ℚ) +
      ((decScaled q % 10 ^ q.den : Nat) : ℚ) / (10 : ℚ) ^ q.den =
      ((decScaled q : Nat) : ℚ) / (10 : ℚ) ^ q.den := by
    rw [eq_div_iff hMQ, add_mul, div_mul_cancel₀ _ hMQ]
    exact hcast.symm
  rw [step1]
  have hmQ : ((decScaled q : Nat) : ℚ) =
      (q.num.natAbs : ℚ) * ((10 ^ q.den / q.den : Nat) : ℚ) := by
    rw [hm]
    push_cast
    ring
  have h10 : ((10 ^ q.den / q.den : Nat) : ℚ) * (q.den : ℚ) = (10 : ℚ) ^ q.den := by
    have h := congrArg (fun n : Nat => (n : ℚ)) hc
    push_cast at h
    exact h
  have hdQ : (q.den : ℚ) ≠ 0 := Nat.cast_ne_zero.mpr (by omega)
  rw [hmQ, ← h10]
  rw [div_eq_div_iff (by
    have hcpos : 0 < 10 ^ q.den / q.den :=
      Nat.div_pos (Nat.le_of_dvd (Nat.pos_pow_of_pos q.den (by omega)) hdvd) hden
    have : ((10 ^ q.den / q.den : Nat) : ℚ) ≠ 0 := Nat.cast_ne_zero.mpr (by omega)
    exact mul_ne_zero this hdQ) hdQ]
  ring

lemma absRatChars_parse (q : ℚ) (hq : 10 ^ q.den % q.den = 0) :
    parseRatPos (absRatChars q) = some ((q.num.natAbs : ℚ) / q.den) := by
  have hden : 0 < q.den := q.pos
  have hMpos : 0 < 10 ^ q.den := Nat.pos_pow_of_pos q.den (by omega)
  have hbM : decScaled q % 10 ^ q.den < 10 ^ q.den := Nat.mod_lt _ hMpos
  have hblen : (natToChars (decScaled q % 10 ^ q.den)).length ≤ max q.den 1 :=
    natToChars_length _ q.den hbM
  have hlen : (leftPad (max q.den 1) (natToChars (decScaled q % 10 ^ q.den))).length =
      max q.den 1 := leftPad_length hblen
  have hnd₁ : '.' ∉ natToChars (decScaled q / 10 ^ q.den) := by
    intro hm
    exact (isDigitChar_ne (natToChars_all_digit _ '.' hm)).2.2.2.1 rfl
  have hnd₂ : '.' ∉ leftPad (max q.den 1) (natToChars (decScaled q % 10 ^ q.den)) := by
    intro hm
    rcases List.mem_append.mp hm with h | h
    · exact absurd (List.eq_of_mem_replicate h) (by decide)
    · exact (isDigitChar_ne (natToChars_all_digit _ '.' h)).2.2.2.1 rfl
  have hsplit : splitOnChar '.' (absRatChars q) =
      [natToChars (decScaled q / 10 ^ q.den),
       leftPad (max q.den 1) (natToChars (decScaled q % 10 ^ q.den))] := by
    unfold absRatChars
    rw [splitOnChar_append '.' _ _ hnd₁, splitOnChar_no_sep '.' _ hnd₂]
  unfold parseRatPos
  rw [hsplit]
  dsimp only
  rw [parseNat_natToChars, parseNat_leftPad _ _ _ (parseNat_natToChars _)]
  dsimp only
  rw [hlen, dec_value q hq]

lemma parseRat_ratToChars (q : ℚ) (hq : 10 ^ q.den % q.den = 0) :
    parseRat (ratToChars q) = some q := by
  unfold ratToChars
  rw [if_pos hq]
  by_cases hneg : q.num < 0
  · rw [if_pos hneg]
    have hshape : ['-'] ++ absRatChars q = '-' :: absRatChars q := rfl
    rw [hshape, parseRat_cons_neg, absRatChars_parse q hq]
    dsimp only [Option.map]
    refine congrArg some ?_
    have habs : ((q.num.natAbs : ℚ)) = -(q.num : ℚ) := by
      have hZ : (q.num.natAbs : ℤ) = -q.num := Int.ofNat_natAbs_of_nonpos (le_of_lt hneg)
      have hQ := congrArg (fun z : ℤ => (z : ℚ)) hZ
      simp only [Int.cast_natCast, Int.cast_neg] at hQ
      exact hQ
    rw [habs, neg_div, neg_neg]
    exact_mod_cast q.num_div_den
  · rw [if_neg hneg]
    have hshape : ([] : List Char) ++ absRatChars q = absRatChars q := by simp
    rw [hshape]
    cases hnc : natToChars (decScaled q / 10 ^ q.den) with
    | nil => exact absurd hnc (natToChars_ne_nil _)
    | cons c cs' =>
      have hcd : isDigitChar c = true := by
        apply natToChars_all_digit (decScaled q / 10 ^ q.den)
        rw [hnc]
        exact List.mem_cons_self c cs'
      have hcne : c ≠ '-' := (isDigitChar_ne hcd).2.2.2.2
      have hb : absRatChars q = c :: (cs' ++ '.' ::
          leftPad (max q.den 1) (natToChars (decScaled q % 10 ^ q.den))) := by
        unfold absRatChars
        rw [hnc]
        rfl
      rw [hb, parseRat_cons_ne hcne, ← hb, absRatChars_parse q hq]
      have habs : ((q.num.natAbs : ℚ)) = (q.num : ℚ) := by
        have hZ : (q.num.natAbs : ℤ) = q.num := Int.natAbs_of_nonneg (not_lt.mp hneg)
        have hQ := congrArg (fun z : ℤ => (z : ℚ)) hZ
        simp only [Int.cast_natCast] at hQ
        exact hQ
      rw [habs]
      exact congrArg some (by exact_mod_cast q.num_div_den)

/-- Quoted-cell body as `to_csv` escapes it: every inner quote doubled,
then the closing quote. -/
def escQuoted (s : List Char) : List Char :=
  s.foldr (fun c acc => if c = '"' then '"' :: '"' :: acc else c :: acc) ['"']

/-- Text of a string cell as `to_csv` writes it: quoted with inner quotes
doubled when the value contains the delimiter, a quote or a line break
(QUOTE_MINIMAL); verbatim otherwise. -/
def strCellChars (s : String) : List Char :=
  if s.data.any (fun c => c = ',' || c = '"' || c = '\n') then
    '"' :: escQuoted s.data
  else s.data

/-- The ten cell texts of a record's CSV row, in column order. -/
def rowCells (r : Record) : List (List Char) :=
  [strCellChars r.product_type, strCellChars r.supplier_name,
   strCellChars r.location, strCellChars r.transportation_modes,
   ratToChars r.revenue_generated, ratToChars r.lead_time,
   ratToChars r.production_volumes, ratToChars r.defect_rates,
   ratToChars r.manufacturing_costs, ratToChars r.costs]

/-- The data rows of the export: one CSV row per record in view order,
each terminated by a newline. -/
def rowsChars (v : List Record) : List Char :=
  v.foldr (fun r acc => joinCells (rowCells r) ++ '\n' :: acc) []

/-- The header line of the export: the normalized column names joined by
the delimiter, terminated by a newline. -/
def csvHeaderChars : List Char :=
  joinCells (coreColumns.map String.data) ++ ['\n']

/-- The byte content of `filtered_data.to_csv(index=False)` (line 161):
the header line, then the data rows. -/
def csvChars (v : List Record) : List Char := csvHeaderChars ++ rowsChars v

/-- The CSV export of the filtered view, a pure function of the view. -/
def serialize (v : List Record) : String := ⟨csvChars v⟩

/-- A rational with a finite decimal representation — the form of every
value a float64 column can contribute, and the precision `to_csv`
writes. -/
def decimalRat (q : ℚ) : Prop := 10 ^ q.den % q.den = 0

/-- A record whose numeric cells are decimal representable, so that the
decimal texts in its CSV row denote them exactly.  String cells are
unrestricted: the writer quotes them as needed and the reader unquotes
them. -/
def decimalRecord (r : Record) : Prop :=
  decimalRat r.revenue_generated ∧ decimalRat r.lead_time ∧
  decimalRat r.production_volumes ∧ decimalRat r.defect_rates ∧
  decimalRat r.manufacturing_costs ∧ decimalRat r.costs

instance (q : ℚ) : Decidable (decimalRat q) := by
  unfold decimalRat
  infer_instance

instance (r : Record) : Decidable (decimalRecord r) := by
  unfold decimalRecord
  infer_instance

lemma absRatChars_clean (q : ℚ) :
    ∀ c ∈ absRatChars q, c ≠ ',' ∧ c ≠ '"' ∧ c ≠ '\n' := by
  intro c hc
  unfold absRatChars at hc
  rcases List.mem_append.mp hc with h | h
  · have hd := isDigitChar_ne (natToChars_all_digit _ c h)
    exact ⟨hd.1, hd.2.1, hd.2.2.1⟩
  · rcases List.mem_cons.mp h with rfl | h
    · exact ⟨by decide, by decide, by decide⟩
    · unfold leftPad at h
      rcases List.mem_append.mp h with h | h
      · rw [List.eq_of_mem_replicate h]
        exact ⟨by decide, by decide, by decide⟩
      · have hd := isDigitChar_ne (natToChars_all_digit _ c h)
        exact ⟨hd.1, hd.2.1, hd.2.2.1⟩

lemma ratToChars_clean (q : ℚ) :
    ∀ c ∈ ratToChars q, c ≠ ',' ∧ c ≠ '"' ∧ c ≠ '\n' := by
  intro c hc
  unfold ratToChars at hc
  have hsign : ∀ x ∈ (if q.num < 0 then ['-'] else ([] : List Char)),
      x ≠ ',' ∧ x ≠ '"' ∧ x ≠ '\n' := by
    intro x hx
    by_cases hneg : q.num < 0
    · rw [if_pos hneg] at hx
      rw [List.mem_singleton.mp hx]
      exact ⟨by decide, by decide, by decide⟩
    · rw [if_neg hneg] at hx
      simp at hx
  by_cases hdec : 10 ^ q.den % q.den = 0
  · rw [if_pos hdec] at hc
    rcases List.mem_append.mp hc with h | h
    · exact hsign c h
    · exact absRatChars_clean q c h
  · rw [if_neg hdec] at hc
    rcases List.mem_append.mp hc with hleft | h
    · rcases List.mem_append.mp hleft with h | h
      · exact hsign c h
      · have hd := isDigitChar_ne (natToChars_all_digit _ c h)
        exact ⟨hd.1, hd.2.1, hd.2.2.1⟩
    · rcases List.mem_cons.mp h with rfl | h
      · exact ⟨by decide, by decide, by decide⟩
      · have hd := isDigitChar_ne (natToChars_all_digit _ c h)
        exact ⟨hd.1, hd.2.1, hd.2.2.1⟩

/-- Consume an unquoted cell: the text up to (excluding) the first
delimiter or line break, paired with the unconsumed remainder. -/
def parseBare : List Char → List Char × List Char
  | [] => ([], [])
  | c :: rest =>
    if c = ',' ∨ c = '\n' then ([], c :: rest)
    else
      let p := parseBare rest
      (c :: p.1, p.2)

/-- Consume the body of a quoted cell (the opening quote already read):
doubled quotes decode to one quote, a lone quote closes the cell; fails
on unterminated quoting. -/
def parseQuoted : List Char → Option (List Char × List Char)
  | [] => none
  | c :: rest =>
    if c = '"' then
      match rest with
      | [] => some ([], [])
      | c₂ :: rest' =>
        if c₂ = '"' then (parseQuoted rest').map (fun p => ('"' :: p.1, p.2))
        else some ([], c₂ :: rest')
    else (parseQuoted rest).map (fun p => (c :: p.1, p.2))

/-- Consume one CSV cell, quoted or bare, returning the decoded cell text
and the unconsumed remainder. -/
def parseCell (cs : List Char) : Option (List Char × List Char) :=
  match cs with
  | [] => some ([], [])
  | c :: rest => if c = '"' then parseQuoted rest else some (parseBare (c :: rest))

/-- Consume `n` cells separated by the delimiter and terminated by a line
break, returning the decoded cells and the remainder after the line
break. -/
def parseRowAux : Nat → List Char → Option (List (List Char) × List Char)
  | 0, _ => none
  | 1, cs =>
    match parseCell cs with
    | none => none
    | some (cell, rest) =>
      match rest with
      | [] => none
      | d :: rest' => if d = '\n' then some ([cell], rest') else none
  | n + 2, cs =>
    match parseCell cs with
    | none => none
    | some (cell, rest) =>
      match rest with
      | [] => none
      | d :: rest' =>
        if d = ',' then (parseRowAux (n + 1) rest').map (fun p => (cell :: p.1, p.2))
        else none

/-- Turn the ten decoded cell texts of a data row into a record of the
fixed schema. -/
def cellsToRecord (cells : List (List Char)) : Option Record :=
  match cells with
  | [pt, sup, loc, tm, rev, ltv, pv, dr, mc, co] =>
    match parseRat rev, parseRat ltv, parseRat pv,
        parseRat dr, parseRat mc, parseRat co with
    | some r₁, some r₂, some r₃, some r₄, some r₅, some r₆ =>
      some ⟨⟨pt⟩, ⟨sup⟩, ⟨loc⟩, ⟨tm⟩, r₁, r₂, r₃, r₄, r₅, r₆⟩
    | _, _, _, _, _, _ => none
  | _ => none

/-- Parse the data rows until the input is exhausted (fuel-bounded; one
unit of fuel per row suffices since every row consumes at least its line
break). -/
def parseRowsAux : Nat → List Char → Option (List Record)
  | 0, cs => if cs = [] then some [] else none
  | fuel + 1, cs =>
    if cs = [] then some []
    else
      match parseRowAux 10 cs with
      | none => none
      | some (cells, rest) =>
        match cellsToRecord cells, parseRowsAux fuel rest with
        | some r, some rs => some (r :: rs)
        | _, _ => none

/-- Deserialization with the same normalization rules: check the header
line of normalized column names, then parse each quoted-or-bare data row
with the fixed schema. -/
def deserialize (s : String) : Option (List Record) :=
  if s.data.take csvHeaderChars.length = csvHeaderChars then
    parseRowsAux s.data.length (s.data.drop csvHeaderChars.length)
  else none

lemma parseBare_no_sep : ∀ (s rest : List Char),
    (∀ c ∈ s, c ≠ ',' ∧ c ≠ '\n') →
    (rest = [] ∨ ∃ d r', rest = d :: r' ∧ (d = ',' ∨ d = '\n')) →
    parseBare (s ++ rest) = (s, rest) := by
  intro s
  induction s with
  | nil =>
    intro rest _ hrest
    rcases hrest with rfl | ⟨d, r', rfl, hd⟩
    · rfl
    · show parseBare (d :: r') = ([], d :: r')
      unfold parseBare
      rw [if_pos hd]
  | cons c s' ih =>
    intro rest hs hrest
    have hc := hs c (List.mem_cons_self c s')
    have hs' : ∀ x ∈ s', x ≠ ',' ∧ x ≠ '\n' :=
      fun x hx => hs x (List.mem_cons_of_mem c hx)
    show parseBare (c :: (s' ++ rest)) = (c :: s', rest)
    unfold parseBare
    rw [if_neg (by
      rintro (h | h)
      · exact hc.1 h
      · exact hc.2 h)]
    rw [ih rest hs' hrest]

lemma parseQuoted_esc : ∀ (s rest : List Char),
    (rest = [] ∨ ∃ d r', rest = d :: r' ∧ d ≠ '"') →
    parseQuoted (escQuoted s ++ rest) = some (s, rest) := by
  intro s
  induction s with
  | nil =>
    intro rest hrest
    show parseQuoted ('"' :: rest) = some ([], rest)
    unfold parseQuoted
    rw [if_pos rfl]
    rcases hrest with rfl | ⟨d, r', rfl, hd⟩
    · rfl
    · dsimp only
      rw [if_neg hd]
  | cons c s' ih =>
    intro rest hrest
    by_cases hc : c = '"'
    · subst hc
      have hesc : escQuoted ('"' :: s') = '"' :: '"' :: escQuoted s' := by
        unfold escQuoted
        simp [List.foldr_cons]
      rw [hesc]
      show parseQuoted ('"' :: '"' :: (escQuoted s' ++ rest)) = some ('"' :: s', rest)
      unfold parseQuoted
      rw [if_pos rfl]
      dsimp only
      rw [if_pos rfl]
      rw [ih rest hrest]
      rfl
    · have hesc : escQuoted (c :: s') = c :: escQuoted s' := by
        unfold escQuoted
        simp [List.foldr_cons, hc]
      rw [hesc]
      show parseQuoted (c :: (escQuoted s' ++ rest)) = some (c :: s', rest)
      unfold parseQuoted
      rw [if_neg hc]
      rw [ih rest hrest]
      rfl

lemma parseCell_plain : ∀ (cell rest : List Char),
    (∀ c ∈ cell, c ≠ ',' ∧ c ≠ '"' ∧ c ≠ '\n') →
    (rest = [] ∨ ∃ d r', rest = d :: r' ∧ (d = ',' ∨ d = '\n')) →
    parseCell (cell ++ rest) = some (cell, rest) := by
  intro cell rest hcell hrest
  cases cell with
  | nil =>
    rcases hrest with rfl | ⟨d, r', rfl, hd⟩
    · rfl
    · show parseCell (d :: r') = some ([], d :: r')
      unfold parseCell
      dsimp only
      rw [if_neg (by
        rcases hd with rfl | rfl <;> decide)]
      unfold parseBare
      rw [if_pos hd]
  | cons c cell' =>
    have hc := hcell c (List.mem_cons_self c cell')
    show parseCell (c :: (cell' ++ rest)) = some (c :: cell', rest)
    unfold parseCell
    dsimp only
    rw [if_neg hc.2.1]
    have := parseBare_no_sep (c :: cell') rest
      (fun x hx => ⟨(hcell x hx).1, (hcell x hx).2.2⟩) hrest
    rw [show c :: (cell' ++ rest) = (c :: cell') ++ rest from rfl, this]

lemma parseCell_strCell : ∀ (s : String) (rest : List Char),
    (rest = [] ∨ ∃ d r', rest = d :: r' ∧ (d = ',' ∨ d = '\n')) →
    parseCell (strCellChars s ++ rest) = some (s.data, rest) := by
  intro s rest hrest
  by_cases hany : s.data.any (fun c => c = ',' || c = '"' || c = '\n') = true
  · have hq : strCellChars s = '"' :: escQuoted s.data := by
      unfold strCellChars
      rw [if_pos hany]
    rw [hq]
    show parseCell ('"' :: (escQuoted s.data ++ rest)) = some (s.data, rest)
    unfold parseCell
    dsimp only
    rw [if_pos rfl]
    apply parseQuoted_esc
    rcases hrest with rfl | ⟨d, r', rfl, hd⟩
    · exact Or.inl rfl
    · exact Or.inr ⟨d, r', rfl, by
        rcases hd with rfl | rfl <;> decide⟩
  · have hp : strCellChars s = s.data := by
      unfold strCellChars
      rw [if_neg hany]
    rw [hp]
    apply parseCell_plain s.data rest ?_ hrest
    intro c hc
    have hno : ¬ ((c = ',' || c = '"' || c = '
') = true) := by
      intro hcontra
      exact hany (List.any_eq_true.mpr ⟨c, hc, hcontra⟩)
    simp only [Bool.or_eq_true, decide_eq_true_eq] at hno
    exact ⟨fun h => hno (Or.inl (Or.inl h)), fun h => hno (Or.inl (Or.inr h)),
      fun h => hno (Or.inr h)⟩

lemma parseRowAux_build :
    ∀ (pairs : List (List Char × List Char)) (rest : List Char),
      pairs ≠ [] →
      (∀ p ∈ pairs, ∀ tail : List Char,
        (tail = [] ∨ ∃ d r', tail = d :: r' ∧ (d = ',' ∨ d = '\n')) →
        parseCell (p.1 ++ tail) = some (p.2, tail)) →
      parseRowAux pairs.length (joinCells (pairs.map Prod.fst) ++ '\n' :: rest) =
        some (pairs.map Prod.snd, rest) := by
  intro pairs
  induction pairs with
  | nil =>
    intro rest h _
    exact absurd rfl h
  | cons p ps ih =>
    intro rest _ hp
    cases ps with
    | nil =>
      have hcell := hp p (List.mem_cons_self p []) ('\n' :: rest)
        (Or.inr ⟨'\n', rest, rfl, Or.inr rfl⟩)
      show parseRowAux 1 (joinCells [p.1] ++ '\n' :: rest) = some ([p.2], rest)
      unfold parseRowAux
      rw [show joinCells [p.1] = p.1 from rfl, hcell]
      dsimp only
      rw [if_pos rfl]
    | cons q ps' =>
      have hj : joinCells ((p :: q :: ps').map Prod.fst) =
          p.1 ++ ',' :: joinCells ((q :: ps').map Prod.fst) := rfl
      have hassoc : (p.1 ++ ',' :: joinCells ((q :: ps').map Prod.fst)) ++ '\n' :: rest =
          p.1 ++ ',' :: (joinCells ((q :: ps').map Prod.fst) ++ '\n' :: rest) := by
        rw [List.append_assoc]
        rfl
      have hcell := hp p (List.mem_cons_self p (q :: ps'))
        (',' :: (joinCells ((q :: ps').map Prod.fst) ++ '\n' :: rest))
        (Or.inr ⟨',', _, rfl, Or.inl rfl⟩)
      have hlen : (p :: q :: ps').length = ps'.length + 2 := rfl
      rw [hlen, hj, hassoc]
      show parseRowAux (ps'.length + 2)
          (p.1 ++ ',' :: (joinCells ((q :: ps').map Prod.fst) ++ '\n' :: rest)) =
        some ((p :: q :: ps').map Prod.snd, rest)
      unfold parseRowAux
      rw [hcell]
      dsimp only
      rw [if_pos rfl]
      have hrec := ih rest (by simp) (fun x hx => hp x (List.mem_cons_of_mem p hx))
      rw [show (q :: ps').length = ps'.length + 1 from rfl] at hrec
      rw [hrec]
      rfl

/-- The encoded and decoded texts of a record's ten cells: string cells
decode to the raw string, numeric cells keep their decimal text for
`parseRat`. -/
def rowPairs (r : Record) : List (List Char × List Char) :=
  [(strCellChars r.product_type, r.product_type.data),
   (strCellChars r.supplier_name, r.supplier_name.data),
   (strCellChars r.location, r.location.data),
   (strCellChars r.transportation_modes, r.transportation_modes.data),
   (ratToChars r.revenue_generated, ratToChars r.revenue_generated),
   (ratToChars r.lead_time, ratToChars r.lead_time),
   (ratToChars r.production_volumes, ratToChars r.production_volumes),
   (ratToChars r.defect_rates, ratToChars r.defect_rates),
   (ratToChars r.manufacturing_costs, ratToChars r.manufacturing_costs),
   (ratToChars r.costs, ratToChars r.costs)]

lemma rowPairs_cells (r : Record) :
    ∀ p ∈ rowPairs r, ∀ tail : List Char,
      (tail = [] ∨ ∃ d r', tail = d :: r' ∧ (d = ',' ∨ d = '\n')) →
      parseCell (p.1 ++ tail) = some (p.2, tail) := by
  intro p hp tail htail
  simp only [rowPairs, List.mem_cons, List.not_mem_nil, or_false] at hp
  rcases hp with rfl | rfl | rfl | rfl | rfl | rfl | rfl | rfl | rfl | rfl
  · exact parseCell_strCell _ tail htail
  · exact parseCell_strCell _ tail htail
  · exact parseCell_strCell _ tail htail
  · exact parseCell_strCell _ tail htail
  · exact parseCell_plain _ tail (ratToChars_clean _) htail
  · exact parseCell_plain _ tail (ratToChars_clean _) htail
  · exact parseCell_plain _ tail (ratToChars_clean _) htail
  · exact parseCell_plain _ tail (ratToChars_clean _) htail
  · exact parseCell_plain _ tail (ratToChars_clean _) htail
  · exact parseCell_plain _ tail (ratToChars_clean _) htail

lemma parseRowAux_rowCells (r : Record) (rest : List Char) :
    parseRowAux 10 (joinCells (rowCells r) ++ '\n' :: rest) =
      some ([r.product_type.data, r.supplier_name.data, r.location.data,
        r.transportation_modes.data, ratToChars r.revenue_generated,
        ratToChars r.lead_time, ratToChars r.production_volumes,
        ratToChars r.defect_rates, ratToChars r.manufacturing_costs,
        ratToChars r.costs], rest) := by
  have h := parseRowAux_build (rowPairs r) rest (by simp [rowPairs]) (rowPairs_cells r)
  have hfst : (rowPairs r).map Prod.fst = rowCells r := rfl
  have hsnd : (rowPairs r).map Prod.snd =
      [r.product_type.data, r.supplier_name.data, r.location.data,
        r.transportation_modes.data, ratToChars r.revenue_generated,
        ratToChars r.lead_time, ratToChars r.production_volumes,
        ratToChars r.defect_rates, ratToChars r.manufacturing_costs,
        ratToChars r.costs] := rfl
  have hlen : (rowPairs r).length = 10 := rfl
  rw [hlen, hfst, hsnd] at h
  exact h

lemma cellsToRecord_decoded (r : Record) (h : decimalRecord r) :
    cellsToRecord [r.product_type.data, r.supplier_name.data, r.location.data,
        r.transportation_modes.data, ratToChars r.revenue_generated,
        ratToChars r.lead_time, ratToChars r.production_volumes,
        ratToChars r.defect_rates, ratToChars r.manufacturing_costs,
        ratToChars r.costs] = some r := by
  obtain ⟨h₁, h₂, h₃, h₄, h₅, h₆⟩ := h
  unfold cellsToRecord
  dsimp only
  rw [parseRat_ratToChars _ h₁, parseRat_ratToChars _ h₂, parseRat_ratToChars _ h₃,
    parseRat_ratToChars _ h₄, parseRat_ratToChars _ h₅, parseRat_ratToChars _ h₆]

lemma rowsChars_length_ge (v : List Record) : v.length ≤ (rowsChars v).length := by
  induction v with
  | nil => simp [rowsChars]
  | cons r v' ih =>
    have : rowsChars (r :: v') = joinCells (rowCells r) ++ '\n' :: rowsChars v' := rfl
    rw [this]
    simp only [List.length_append, List.length_cons]
    omega

lemma parseRowsAux_build : ∀ (v : List Record) (fuel : Nat),
    (∀ r ∈ v, decimalRecord r) → v.length ≤ fuel →
    parseRowsAux fuel (rowsChars v) = some v := by
  intro v
  induction v with
  | nil =>
    intro fuel _ _
    cases fuel with
    | zero => rfl
    | succ fuel' =>
      show parseRowsAux (fuel' + 1) [] = some []
      unfold parseRowsAux
      rw [if_pos rfl]
  | cons r v' ih =>
    intro fuel h hf
    cases fuel with
    | zero => simp at hf
    | succ fuel' =>
      have hrow : rowsChars (r :: v') =
          joinCells (rowCells r) ++ '\n' :: rowsChars v' := rfl
      have hne : joinCells (rowCells r) ++ '\n' :: rowsChars v' ≠ [] := by
        simp
      rw [hrow]
      show parseRowsAux (fuel' + 1)
        (joinCells (rowCells r) ++ '\n' :: rowsChars v') = some (r :: v')
      unfold parseRowsAux
      rw [if_neg hne, parseRowAux_rowCells r (rowsChars v')]
      dsimp only
      rw [cellsToRecord_decoded r (h r (List.mem_cons_self r v')),
        ih fuel' (fun x hx => h x (List.mem_cons_of_mem r hx)) (by
          simp only [List.length_cons] at hf
          omega)]

/-- C8: serialization and round-trip of the export.  `serialize` is a
pure function of the Filtered View whose byte content is the header row
of the ten normalized column names followed by one CSV row per record in
view order (each terminated by a line break, string cells quoted with
doubled inner quotes whenever they contain the delimiter, a quote or a
line break), and deserializing with the same normalization rules — a
quote-aware reader over the same fixed schema — reproduces the view
exactly, for every view whose numeric cells are decimal representable:
the precision at which `to_csv` writes float64 values.  String cells are
arbitrary. -/
theorem serialize_header_rows_roundtrip :
    ∀ v : List Record, (∀ r ∈ v, decimalRecord r) →
      (serialize v).data =
        joinCells (coreColumns.map String.data) ++ '\n' ::
          v.foldr (fun r acc => joinCells (rowCells r) ++ '\n' :: acc) [] ∧
      deserialize (serialize v) = some v := by
  intro v h
  have hdata : (serialize v).data = csvHeaderChars ++ rowsChars v := rfl
  constructor
  · rw [hdata]
    show (joinCells (coreColumns.map String.data) ++ ['\n']) ++ rowsChars v =
      joinCells (coreColumns.map String.data) ++ '\n' :: rowsChars v
    rw [List.append_assoc]
    rfl
  · unfold deserialize
    rw [hdata, List.take_left, if_pos rfl, List.drop_left]
    apply parseRowsAux_build v _ h
    have h₁ := rowsChars_length_ge v
    rw [List.length_append]
    omega

/-- Witness for C8: a concrete view whose string cells contain the
delimiter, a quote and a line break — so the writer quotes them — and
whose numeric cells include non-integers, round-trips exactly. -/
theorem serialize_roundtrip_witness :
    deserialize (serialize
      [mkR "a,b" "s\"t" "l\nx" "plain" 1 (3 / 2) 0 2 5 6,
       mkR "c" "s2" "l2" "t2" 7 (7 / 4) 2 3 4 5]) =
    some [mkR "a,b" "s\"t" "l\nx" "plain" 1 (3 / 2) 0 2 5 6,
       mkR "c" "s2" "l2" "t2" 7 (7 / 4) 2 3 4 5] :=
  (serialize_header_rows_roundtrip
    [mkR "a,b" "s\"t" "l\nx" "plain" 1 (3 / 2) 0 2 5 6,
     mkR "c" "s2" "l2" "t2" 7 (7 / 4) 2 3 4 5]
    (by with_unfolding_all decide)).2
